import Mathlib

/-!
Verification of the apply/revert reconciliation engine of the jellyfin
series organizer (`src/app.py`, `src/organize_series.py`).

The filesystem is modelled as a flat association list from paths to file
data.  A path is a list of name components (relative to the process
working directory, mirroring `Path.relative_to(Path.cwd())` in the
source); a name is a list of characters, mirroring the Python strings
used as path components.
-/

/-- A file or directory name: a list of characters. -/
abbrev MName := List Char

/-- A filesystem path: a list of name components. -/
abbrev MPath := List MName

/-- One relocated file, as recorded in `file_mappings.json`
(`src/app.py` lines 218-223 and 244-249). -/
structure FileMapping where
  old_path : MPath
  new_path : MPath
  old_name : MName
  new_name : MName
deriving DecidableEq, Repr

/-- The persisted mapping record (`src/app.py` lines 274-281). -/
structure MappingRecord where
  applied_at : String
  series_name : MName
  year : Option Int
  destination_folder : MPath
  file_mappings : List FileMapping
deriving DecidableEq, Repr

/-- Contents of a file: raw bytes, or a parsed JSON mapping record (the
only structured file the engine reads back via `json.loads`). -/
inductive FileData where
  | bytes (s : String)
  | record (r : MappingRecord)
deriving DecidableEq, Repr

/-- A flat filesystem: an association list from paths to an inode
number and file data.  Hard links share the inode number; that identity
is what `os.path.samefile`, and through it `shutil.copy2`'s
`SameFileError` check, observes. -/
structure MFS where
  files : List (MPath × Nat × FileData)
deriving DecidableEq, Repr

/-- Look up the inode and data stored at a path, if any. -/
def MFS.lookup (fs : MFS) (p : MPath) : Option (Nat × FileData) :=
  (fs.files.find? (fun e => decide (e.1 = p))).map Prod.snd

/-- Read the data stored at a path, if any. -/
def MFS.read (fs : MFS) (p : MPath) : Option FileData :=
  (fs.lookup p).map Prod.snd

/-- The inode of the file at a path, if any. -/
def MFS.ino (fs : MFS) (p : MPath) : Option Nat :=
  (fs.lookup p).map Prod.fst

/-- `Path.exists()` on a file path. -/
def MFS.existsF (fs : MFS) (p : MPath) : Bool :=
  (fs.read p).isSome

/-- Create or replace the entry at a path with the given inode. -/
def MFS.insert (fs : MFS) (p : MPath) (i : Nat) (c : FileData) : MFS :=
  ⟨(p, i, c) :: fs.files.filter (fun e => decide (e.1 ≠ p))⟩

/-- `Path.unlink()`: remove the file at a path. -/
def MFS.erase (fs : MFS) (p : MPath) : MFS :=
  ⟨fs.files.filter (fun e => decide (e.1 ≠ p))⟩

/-- An inode number used by no existing file. -/
def MFS.freshIno (fs : MFS) : Nat :=
  (fs.files.map (fun e => e.2.1)).foldr max 0 + 1

/-- `open(path, "w")` followed by a write: an existing file is
truncated in place and keeps its inode, a new file gets a fresh one.
Used by `Path.write_text` and by the data transfer of
`shutil.copy2`. -/
def MFS.writeFile (fs : MFS) (p : MPath) (c : FileData) : MFS :=
  match fs.ino p with
  | some i => fs.insert p i c
  | none => fs.insert p fs.freshIno c

/-- `os.path.samefile` as `shutil` uses it: both paths resolve to the
same inode; any lookup failure counts as not-the-same. -/
def sameFile (fs : MFS) (p q : MPath) : Bool :=
  match fs.ino p, fs.ino q with
  | some i, some j => i == j
  | _, _ => false

/-- The names of the files lying directly in directory `d`. -/
def MFS.dirList (fs : MFS) (d : MPath) : List MName :=
  fs.files.filterMap (fun e =>
    if e.1.dropLast = d ∧ e.1 ≠ [] then e.1.getLast? else none)

lemma find?_filter_of_imp {α : Type} (l : List α) (f g : α → Bool)
    (h : ∀ x, f x = true → g x = true) :
    (l.filter g).find? f = l.find? f := by
  induction l with
  | nil => rfl
  | cons a l ih =>
    rw [List.filter_cons]
    cases hf : f a with
    | true =>
      have hg := h a hf
      rw [if_pos hg, List.find?_cons_of_pos _ hf, List.find?_cons_of_pos _ hf]
    | false =>
      rw [List.find?_cons_of_neg _ (by simp [hf])]
      cases hg : g a with
      | true => rw [if_pos rfl, List.find?_cons_of_neg _ (by simp [hf]), ih]
      | false => rw [if_neg (by simp), ih]

lemma filterMap_filter_of_none {α β : Type} (l : List α) (f : α → Option β)
    (g : α → Bool) (h : ∀ x, g x = false → f x = none) :
    (l.filter g).filterMap f = l.filterMap f := by
  induction l with
  | nil => rfl
  | cons a l ih =>
    cases hg : g a with
    | true => simp [List.filter_cons, hg, List.filterMap_cons, ih]
    | false =>
      have hf := h a hg
      simp [List.filter_cons, hg, List.filterMap_cons, hf, ih]

lemma filterMap_cons_of_none {α β : Type} (f : α → Option β) (a : α)
    (l : List α) (h : f a = none) :
    (a :: l).filterMap f = l.filterMap f := by
  simp [List.filterMap_cons, h]

lemma MFS.lookup_insert_self (fs : MFS) (p : MPath) (i : Nat)
    (c : FileData) : (fs.insert p i c).lookup p = some (i, c) := by
  simp [MFS.lookup, MFS.insert, List.find?_cons]

lemma MFS.lookup_insert_ne (fs : MFS) (p q : MPath) (i : Nat)
    (c : FileData) (h : q ≠ p) :
    (fs.insert p i c).lookup q = fs.lookup q := by
  unfold MFS.lookup MFS.insert
  rw [List.find?_cons_of_neg _ (by simp [Ne.symm h]), find?_filter_of_imp]
  intro x hx
  simp only [decide_eq_true_eq] at hx
  simp [hx, h]

lemma MFS.read_insert_self (fs : MFS) (p : MPath) (i : Nat)
    (c : FileData) : (fs.insert p i c).read p = some c := by
  rw [MFS.read, MFS.lookup_insert_self]
  rfl

lemma MFS.read_insert_ne (fs : MFS) (p q : MPath) (i : Nat) (c : FileData)
    (h : q ≠ p) : (fs.insert p i c).read q = fs.read q := by
  rw [MFS.read, MFS.lookup_insert_ne fs p q i c h, MFS.read]

lemma MFS.read_writeFile_self (fs : MFS) (p : MPath) (c : FileData) :
    (fs.writeFile p c).read p = some c := by
  unfold MFS.writeFile
  cases fs.ino p with
  | none => exact MFS.read_insert_self _ _ _ _
  | some i => exact MFS.read_insert_self _ _ _ _

lemma MFS.read_writeFile_ne (fs : MFS) (p q : MPath) (c : FileData)
    (h : q ≠ p) : (fs.writeFile p c).read q = fs.read q := by
  unfold MFS.writeFile
  cases fs.ino p with
  | none => exact MFS.read_insert_ne _ _ _ _ _ h
  | some i => exact MFS.read_insert_ne _ _ _ _ _ h

lemma MFS.read_erase_self (fs : MFS) (p : MPath) :
    (fs.erase p).read p = none := by
  unfold MFS.read MFS.lookup MFS.erase
  rw [List.find?_eq_none.mpr]
  · rfl
  · intro x hx
    rcases List.mem_filter.mp hx with ⟨-, hx2⟩
    simpa using hx2

lemma MFS.read_erase_ne (fs : MFS) (p q : MPath)
    (h : q ≠ p) : (fs.erase p).read q = fs.read q := by
  unfold MFS.read MFS.lookup MFS.erase
  rw [find?_filter_of_imp]
  intro x hx
  simp only [decide_eq_true_eq] at hx
  simp [hx, h]

lemma MFS.dirList_insert_ne (fs : MFS) (p : MPath) (i : Nat)
    (c : FileData) (d : MPath) (h : p.dropLast ≠ d) :
    (fs.insert p i c).dirList d = fs.dirList d := by
  unfold MFS.dirList MFS.insert
  have h1 : ¬ (p.dropLast = d ∧ p ≠ []) := fun hh => h hh.1
  dsimp only
  rw [filterMap_cons_of_none
    (fun e : MPath × Nat × FileData =>
      if List.dropLast e.1 = d ∧ e.1 ≠ [] then List.getLast? e.1 else none)
    (p, i, c) (fs.files.filter (fun e => decide (e.1 ≠ p))) (if_neg h1)]
  apply filterMap_filter_of_none
  intro x hx
  have hx1 : x.1 = p := by simpa using hx
  rw [hx1, if_neg h1]

lemma MFS.dirList_writeFile_ne (fs : MFS) (p : MPath) (c : FileData)
    (d : MPath) (h : p.dropLast ≠ d) :
    (fs.writeFile p c).dirList d = fs.dirList d := by
  unfold MFS.writeFile
  cases fs.ino p with
  | none => exact MFS.dirList_insert_ne _ _ _ _ _ h
  | some i => exact MFS.dirList_insert_ne _ _ _ _ _ h

lemma MFS.read_isSome_of_mem_dirList (fs : MFS) (d : MPath) (n : MName)
    (h : n ∈ fs.dirList d) : (fs.read (d ++ [n])).isSome = true := by
  unfold MFS.dirList at h
  rcases List.mem_filterMap.mp h with ⟨e, he, hfe⟩
  by_cases hc : e.1.dropLast = d ∧ e.1 ≠ []
  · rw [if_pos hc] at hfe
    rcases List.getLast?_eq_some_iff.mp hfe with ⟨l', hl'⟩
    have hd : l' = d := by
      have h2 := hc.1
      rw [hl', List.dropLast_concat] at h2
      exact h2
    have hpath : e.1 = d ++ [n] := by rw [hl', hd]
    unfold MFS.read MFS.lookup
    rw [Option.isSome_map', Option.isSome_map', List.find?_isSome]
    exact ⟨e, he, by simp [hpath]⟩
  · rw [if_neg hc] at hfe
    exact absurd hfe (by simp)

lemma append_singleton_inj {α : Type} {a b : List α} {x y : α}
    (h : a ++ [x] = b ++ [y]) : a = b ∧ x = y := by
  have h1 := congrArg List.reverse h
  simp only [List.reverse_append, List.reverse_cons, List.reverse_nil,
    List.nil_append, List.singleton_append, List.cons.injEq] at h1
  exact ⟨List.reverse_injective h1.2, h1.1⟩

/-!
Glob matching.  `apply` discovers related files with
`source_parent.glob(f"{escaped_stem}.*")` after
`glob_module.escape(source_stem)` (`src/app.py` lines 203-207).
Python's fnmatch compiles a pattern and then matches it; we mirror that:
`gtranslate` compiles the pattern characters into tokens (literal, `?`,
`*`; the character classes are modelled for the single-character classes
`[c]` that `glob.escape` produces, an unclosed `[` being literal), and
`gmatch` runs the compiled pattern.
-/

/-- A compiled glob-pattern token. -/
inductive GPat where
  | lit (c : Char)
  | anyOne
  | star
deriving DecidableEq, Repr

/-- Compile pattern characters to tokens (`fnmatch.translate`).  A
well-formed class `[c]` compiles to the literal `c`; an unclosed `[`
stays a literal, as in Python. -/
def gtranslate : List Char → List GPat
  | [] => []
  | '[' :: c2 :: ']' :: ps => .lit c2 :: gtranslate ps
  | c :: ps =>
    if c = '*' then .star :: gtranslate ps
    else if c = '?' then .anyOne :: gtranslate ps
    else .lit c :: gtranslate ps

/-- Fuel-indexed matcher for compiled patterns: `star` matches any run
of characters, `anyOne` one character, `lit c` exactly `c`.  The fuel
only forces structural termination; `ps.length + s.length` steps always
suffice. -/
def gmatchFuel : Nat → List GPat → List Char → Bool
  | 0, _, _ => false
  | _ + 1, [], s => s.isEmpty
  | fuel + 1, .star :: ps, [] => gmatchFuel fuel ps []
  | fuel + 1, .star :: ps, d :: cs =>
    gmatchFuel fuel ps (d :: cs) || gmatchFuel fuel (.star :: ps) cs
  | _ + 1, .anyOne :: _, [] => false
  | fuel + 1, .anyOne :: ps, _ :: cs => gmatchFuel fuel ps cs
  | _ + 1, .lit _ :: _, [] => false
  | fuel + 1, .lit c :: ps, d :: cs => d == c && gmatchFuel fuel ps cs

/-- Match a compiled pattern against a string. -/
def gmatch (ps : List GPat) (s : List Char) : Bool :=
  gmatchFuel (ps.length + s.length + 1) ps s

/-- `fnmatch`: compile the pattern, then match. -/
def fnmatchChars (p s : List Char) : Bool :=
  gmatch (gtranslate p) s

/-- Whether a character is special to glob patterns, as escaped by
`glob.escape` (which wraps `*`, `?` and `[` in brackets). -/
def globSpecial (c : Char) : Bool :=
  c = '*' || c = '?' || c = '['

/-- `glob.escape`: wrap every glob-special character in brackets. -/
def globEscape : List Char → List Char
  | [] => []
  | c :: cs =>
    (if globSpecial c then ['[', c, ']'] else [c]) ++ globEscape cs

/-- Index of the last `.` in a name, if any. -/
def lastDotIdx : MName → Option Nat
  | [] => none
  | c :: cs =>
    match lastDotIdx cs with
    | some i => some (i + 1)
    | none => if c = '.' then some 0 else none

/-- `PurePath.stem`: the final path component without its last suffix.
A leading dot or a trailing dot does not open a suffix. -/
def stemOf (n : MName) : MName :=
  match lastDotIdx n with
  | some i => if 0 < i ∧ i < n.length - 1 then n.take i else n
  | none => n

/-- `PurePath.suffix`: the last dot-separated extension, dot included,
or empty when there is none. -/
def suffixOf (n : MName) : MName :=
  match lastDotIdx n with
  | some i => if 0 < i ∧ i < n.length - 1 then n.drop i else []
  | none => []

/-- Related-file discovery: the names in the directory listing matching
the glob pattern `escape(stem) ++ ".*"` (`src/app.py` lines 203-207, and
the pre-count at lines 163-166). -/
def relatedNames (dir : List MName) (stem : MName) : List MName :=
  dir.filter (fun n => fnmatchChars (globEscape stem ++ ['.', '*']) n)

/-!
The classified structure handed to `apply` via the session
(`structure['series_name']`, `structure['year']`,
`structure['episodes']`), and the path naming derived from it.
-/

/-- One classified episode (`ep['original_filename']`,
`ep['new_filename']`, `ep['season']`). -/
structure Episode where
  original_filename : MName
  new_filename : MName
  season : Nat
deriving DecidableEq, Repr

/-- The classified series structure. -/
structure SeriesStructure where
  series_name : MName
  year : Option Int
  episodes : List Episode
deriving DecidableEq, Repr

/-- `f"{series_name} ({year})" if year else series_name`
(`src/app.py` line 146): a `year` of `0` is falsy in Python and drops
the parenthesised part, as does an absent year. -/
def folderName (st : SeriesStructure) : MName :=
  match st.year with
  | some y =>
    if y ≠ 0 then
      st.series_name ++ (" (".toList ++ (toString y).toList ++ ")".toList)
    else st.series_name
  | none => st.series_name

/-- `f"Season {season_num:02d}"`: decimal digits, zero-padded to two. -/
def pad2 (n : Nat) : MName :=
  if n < 10 then '0' :: Nat.toDigits 10 n else Nat.toDigits 10 n

/-- The season folder name (`src/app.py` line 181). -/
def seasonName (n : Nat) : MName :=
  "Season ".toList ++ pad2 n

/-- `series_path = TV / folder_name` (`src/app.py` line 148). -/
def seriesPath (tv : MPath) (st : SeriesStructure) : MPath :=
  tv ++ [folderName st]

/-- `season_folder = series_path / f"Season {num:02d}"`. -/
def seasonDir (tv : MPath) (st : SeriesStructure) (n : Nat) : MPath :=
  seriesPath tv st ++ [seasonName n]

/-- The applied-marker file name (`src/app.py` line 266). -/
def appliedName : MName := ".applied".toList

/-- The mapping record file name (`src/app.py` line 267). -/
def mappingName : MName := "file_mappings.json".toList

/-!
The reconciliation engine.  `apply` (`src/app.py` lines 123-293) streams
`total`, `progress` and a terminal `complete`/`error` event while hard
linking each episode and its related files into the destination tree,
then persists the applied-marker and the mapping record.  OS-level
failures of `os.link` and `shutil.copy2` beyond those determined by the
modelled filesystem (cross-device links, permissions) are abstracted
into an environment of failure predicates.
-/

/-- Environmental (OS-level) failure modes of the apply pass:
`linkFails` for `os.link` beyond the failures the filesystem state
determines, `copyFails` for `shutil.copy2` beyond the `SameFileError`
the inodes determine, and `writeFails` for the `write_text` calls that
persist the applied-marker and the mapping record. -/
structure LinkEnv where
  linkFails : MPath → MPath → Bool
  copyFails : MPath → MPath → Bool
  writeFails : MPath → Bool

/-- Which duplication strategy succeeded. -/
inductive Strategy where
  | link
  | copy
deriving DecidableEq, Repr

/-- One progress-stream event (`src/app.py` lines 172, 236, 262, 287,
291). -/
inductive Event where
  | total (total : Nat)
  | progress (current total : Nat) (filename : MName)
  | complete (message : String) (total : Nat)
  | error (msg : String)
deriving DecidableEq, Repr

/-- The per-file duplication step (`src/app.py` lines 226-234 and
252-260): try `os.link`; `os.link` raises when the source is missing,
when the destination already exists, or on an environmental failure; on
any `OSError` the handler falls back to `shutil.copy2`.  The copy first
raises `SameFileError` when source and destination resolve to the same
inode (the hard-linked-destination case of a re-run), otherwise fails
only when the source is missing or on an environmental failure, and
otherwise transfers the bytes, truncating an existing destination in
place.  A copy failure is raised inside the `except` handler, so it
propagates. -/
def materializeOne (env : LinkEnv) (fs : MFS) (src dst : MPath) :
    Except String (MFS × Strategy) :=
  match fs.lookup src with
  | none => .error "link and copy failed: source missing"
  | some ic =>
    if fs.existsF dst || env.linkFails src dst then
      if sameFile fs src dst then
        .error "SameFileError: source and destination are the same file"
      else if env.copyFails src dst then .error "copy failed"
      else .ok (fs.writeFile dst ic.2, .copy)
    else .ok (fs.insert dst ic.1 ic.2, .link)

/-- The running state of one `apply` pass: the filesystem, the
`moved_files` counter, the accumulated `all_file_mappings`, the events
yielded so far, and the pending exception, if any. -/
structure ApplySt where
  fs : MFS
  moved : Nat
  maps : List FileMapping
  evs : List Event
  err : Option String
deriving DecidableEq, Repr

/-- The destination name of one file of an episode: the exact source
file goes to the episode's `new_filename`, any other sibling to the
destination stem plus its own extension (`src/app.py` lines 193, 239-240). -/
def destName (ep : Episode) (fname : MName) : MName :=
  if fname = ep.original_filename then ep.new_filename
  else stemOf ep.new_filename ++ suffixOf fname

/-- Process one file of an episode's related-file list (`src/app.py`
lines 211-262): route the exact source file to the episode's
`new_filename` and any other sibling to the destination stem plus its
own extension, record the mapping (the source appends it before the
link attempt), materialize, and yield a progress event. -/
def fileStep (env : LinkEnv) (total : Nat) (sf seasonF : MPath)
    (ep : Episode) (s : ApplySt) (fname : MName) : ApplySt :=
  if s.err.isSome then s
  else
    let dname := destName ep fname
    let src := sf ++ [fname]
    let dst := seasonF ++ [dname]
    let m : FileMapping := ⟨src, dst, fname, dname⟩
    match materializeOne env s.fs src dst with
    | .error e => { s with maps := s.maps ++ [m], err := some e }
    | .ok (fs', _) =>
      { s with
        fs := fs'
        moved := s.moved + 1
        maps := s.maps ++ [m]
        evs := s.evs ++ [Event.progress (s.moved + 1) total dname] }

/-- Process one episode (`src/app.py` lines 179-262): skip silently if
its source file does not exist, otherwise expand the related files of
its stem and process each. -/
def episodeStep (env : LinkEnv) (tv : MPath) (st : SeriesStructure)
    (sf : MPath) (total : Nat) (s : ApplySt) (ep : Episode) : ApplySt :=
  if s.err.isSome then s
  else if (s.fs.read (sf ++ [ep.original_filename])).isSome then
    let seasonF := seasonDir tv st ep.season
    let rel := relatedNames (s.fs.dirList sf) (stemOf ep.original_filename)
    rel.foldl (fileStep env total sf seasonF ep) s
  else s

/-- The pre-count of one episode's files (`src/app.py` lines 157-168):
the number of related files when the source file exists, `0` otherwise. -/
def countFor (fs : MFS) (sf : MPath) (ep : Episode) : Nat :=
  if (fs.read (sf ++ [ep.original_filename])).isSome then
    (relatedNames (fs.dirList sf) (stemOf ep.original_filename)).length
  else 0

/-- `total_files`: the pre-scan count over all episodes. -/
def totalCount (fs : MFS) (sf : MPath) (eps : List Episode) : Nat :=
  (eps.map (countFor fs sf)).sum

/-- One full `apply` pass (`src/app.py` lines 134-291): emit the total,
process every episode, and if no exception is pending write the
applied-marker (line 271) and then the mapping record (line 281) and
emit `complete`.  A pending exception, or a fault in either of the two
final writes, instead ends the stream with an `error` event — a fault
in the record write leaves the marker already on disk, since the two
writes are not atomic.  A faulting write is modelled as performing
nothing.  `now` stands for `datetime.now().isoformat()`. -/
def applyRun (env : LinkEnv) (now : String) (tv sf : MPath)
    (st : SeriesStructure) (fs0 : MFS) : ApplySt :=
  let total := totalCount fs0 sf st.episodes
  let s0 : ApplySt := ⟨fs0, 0, [], [Event.total total], none⟩
  let s1 := st.episodes.foldl (episodeStep env tv st sf total) s0
  match s1.err with
  | some e => { s1 with evs := s1.evs ++ [Event.error e] }
  | none =>
    if env.writeFails (sf ++ [appliedName]) then
      { s1 with
        err := some "marker write failed"
        evs := s1.evs ++ [Event.error "marker write failed"] }
    else
      let fs1 := s1.fs.writeFile (sf ++ [appliedName])
        (FileData.bytes ("Organization applied at " ++ now))
      if env.writeFails (sf ++ [mappingName]) then
        { s1 with
          fs := fs1
          err := some "record write failed"
          evs := s1.evs ++ [Event.error "record write failed"] }
      else
        let r : MappingRecord :=
          ⟨now, st.series_name, st.year, seriesPath tv st, s1.maps⟩
        { s1 with
          fs := fs1.writeFile (sf ++ [mappingName]) (FileData.record r)
          evs := s1.evs ++
            [Event.complete "Organization applied successfully" s1.moved] }

/-!
The revert engine (`src/app.py` lines 314-374).
-/

/-- Environmental (OS-level) failure modes for `Path.unlink`. -/
structure UnlinkEnv where
  unlinkFails : MPath → Bool

/-- Revert one recorded mapping (`src/app.py` lines 340-355): delete
`new_path` when it exists (an environmental unlink failure is caught
per entry and appended to `errors`); a missing `new_path` is only
logged as a warning. -/
def revertStep (renv : UnlinkEnv) (acc : MFS × Nat × List String)
    (m : FileMapping) : MFS × Nat × List String :=
  let fs := acc.1
  let n := acc.2.1
  let errs := acc.2.2
  if fs.existsF m.new_path then
    if renv.unlinkFails m.new_path then
      (fs, n, errs ++ ["Error removing link " ++ String.mk m.new_name])
    else (fs.erase m.new_path, n + 1, errs)
  else (fs, n, errs)

/-- One full `revert` pass (`src/app.py` lines 314-374): with no
mapping file respond 404 and change nothing; with an unparsable one the
`json.loads` exception yields an error response; otherwise process each
recorded mapping, then remove the applied-marker if present and the
mapping file (whose own `unlink` failure, including the file having
been deleted by a recorded mapping, escapes to the catch-all handler
after the deletions already performed). -/
def revertRun (renv : UnlinkEnv) (sf : MPath) (fs : MFS) :
    MFS × Except String (Nat × List String) :=
  match fs.read (sf ++ [mappingName]) with
  | none => (fs, .error "No mapping file found")
  | some (FileData.bytes _) => (fs, .error "corrupt mapping record")
  | some (FileData.record r) =>
    let acc := r.file_mappings.foldl (revertStep renv) (fs, 0, [])
    let fs1 := acc.1
    if fs1.existsF (sf ++ [appliedName]) &&
        renv.unlinkFails (sf ++ [appliedName]) then
      (fs1, .error "marker unlink failed")
    else
      let fs2 := if fs1.existsF (sf ++ [appliedName]) then
                   fs1.erase (sf ++ [appliedName])
                 else fs1
      if fs2.existsF (sf ++ [mappingName]) then
        if renv.unlinkFails (sf ++ [mappingName]) then
          (fs2, .error "mapping file unlink failed")
        else (fs2.erase (sf ++ [mappingName]), .ok (acc.2.1, acc.2.2))
      else (fs2, .error "mapping file vanished during revert")

/-!
Invariants of the apply fold.
-/

/-- The progress events with currents `k+1, k+2, ...` and the given
filenames. -/
def progFrom (N : Nat) (k : Nat) : List MName → List Event
  | [] => []
  | n :: ns => Event.progress (k + 1) N n :: progFrom N (k + 1) ns

lemma progFrom_append (N k : Nat) (ns : List MName) (n : MName) :
    progFrom N k (ns ++ [n]) =
      progFrom N k ns ++ [Event.progress (k + ns.length + 1) N n] := by
  induction ns generalizing k with
  | nil => simp [progFrom]
  | cons a ns ih =>
    simp only [List.cons_append, progFrom, List.length_cons, List.append_eq]
    rw [ih]
    have h2 : k + 1 + ns.length + 1 = k + (ns.length + 1) + 1 := by omega
    rw [h2]

/-- No season directory of an episode of the structure coincides with
the source folder (true of the deployment: the source folders live
under `tv_unordered`, season folders under `tv`). -/
def SeasonOK (tv : MPath) (st : SeriesStructure) (sf : MPath) : Prop :=
  ∀ ep ∈ st.episodes, seasonDir tv st ep.season ≠ sf

instance (tv st sf) : Decidable (SeasonOK tv st sf) := by
  unfold SeasonOK
  infer_instance

/-- Invariant carried through the apply fold: only season directories
of the structure have been written (all other reads agree with the
initial filesystem), the source directory listing is untouched, the
events are the initial total followed by one progress event per moved
file with consecutive currents, and each accumulated mapping records an
initially existing source-directory file and a destination outside the
source directory. -/
def ApplyInv (tv : MPath) (st : SeriesStructure) (sf : MPath) (N : Nat)
    (fs0 : MFS) (s : ApplySt) : Prop :=
  (∀ q : MPath, (∀ ep ∈ st.episodes, q.dropLast ≠ seasonDir tv st ep.season) →
      s.fs.read q = fs0.read q) ∧
  s.fs.dirList sf = fs0.dirList sf ∧
  (∃ ns : List MName, s.evs = Event.total N :: progFrom N 0 ns ∧
      ns.length = s.moved) ∧
  (∀ m ∈ s.maps, m.old_path = sf ++ [m.old_name] ∧
      (fs0.read m.old_path).isSome = true ∧
      m.new_path.dropLast ≠ sf ∧ m.new_path ≠ [])

lemma fileStep_dead (env : LinkEnv) (total : Nat) (sf seasonF : MPath)
    (ep : Episode) (s : ApplySt) (fname : MName) (h : s.err.isSome = true) :
    fileStep env total sf seasonF ep s fname = s := by
  simp [fileStep, h]

lemma foldl_fileStep_dead (env : LinkEnv) (total : Nat) (sf seasonF : MPath)
    (ep : Episode) (names : List MName) (s : ApplySt)
    (h : s.err.isSome = true) :
    names.foldl (fileStep env total sf seasonF ep) s = s := by
  induction names with
  | nil => rfl
  | cons n names ih => rw [List.foldl_cons, fileStep_dead _ _ _ _ _ _ _ h, ih]

lemma episodeStep_dead (env : LinkEnv) (tv : MPath) (st : SeriesStructure)
    (sf : MPath) (total : Nat) (s : ApplySt) (ep : Episode)
    (h : s.err.isSome = true) :
    episodeStep env tv st sf total s ep = s := by
  simp [episodeStep, h]

lemma materializeOne_ok (env : LinkEnv) (fs : MFS) (src dst : MPath)
    (fs' : MFS) (strat : Strategy)
    (h : materializeOne env fs src dst = .ok (fs', strat)) :
    (∃ c, fs.read src = some c ∧ fs'.read dst = some c) ∧
    (∀ q : MPath, q ≠ dst → fs'.read q = fs.read q) ∧
    (∀ d : MPath, dst.dropLast ≠ d → fs'.dirList d = fs.dirList d) := by
  unfold materializeOne at h
  split at h
  · exact absurd h (by simp)
  · next ic hr =>
    have hread : fs.read src = some ic.2 := by
      rw [MFS.read, hr]
      rfl
    split at h
    · split at h
      · exact absurd h (by simp)
      · split at h
        · exact absurd h (by simp)
        · obtain ⟨h1, -⟩ := Prod.ext_iff.mp (Except.ok.inj h)
          have h2 : fs.writeFile dst ic.2 = fs' := h1
          refine ⟨⟨ic.2, hread, ?_⟩, ?_, ?_⟩
          · rw [← h2]
            exact MFS.read_writeFile_self _ _ _
          · intro q hq
            rw [← h2]
            exact MFS.read_writeFile_ne _ _ _ _ hq
          · intro d hd
            rw [← h2]
            exact MFS.dirList_writeFile_ne _ _ _ _ hd
    · obtain ⟨h1, -⟩ := Prod.ext_iff.mp (Except.ok.inj h)
      have h2 : fs.insert dst ic.1 ic.2 = fs' := h1
      refine ⟨⟨ic.2, hread, ?_⟩, ?_, ?_⟩
      · rw [← h2]
        exact MFS.read_insert_self _ _ _ _
      · intro q hq
        rw [← h2]
        exact MFS.read_insert_ne _ _ _ _ _ hq
      · intro d hd
        rw [← h2]
        exact MFS.dirList_insert_ne _ _ _ _ _ hd

lemma fileStep_ok (env : LinkEnv) (total : Nat) (sf seasonF : MPath)
    (ep : Episode) (s : ApplySt) (fname : MName) (fs' : MFS)
    (strat : Strategy) (herr : s.err = none)
    (hmat : materializeOne env s.fs (sf ++ [fname])
      (seasonF ++ [destName ep fname]) = .ok (fs', strat)) :
    fileStep env total sf seasonF ep s fname =
      { s with
        fs := fs'
        moved := s.moved + 1
        maps := s.maps ++ [⟨sf ++ [fname], seasonF ++ [destName ep fname],
          fname, destName ep fname⟩]
        evs := s.evs ++
          [Event.progress (s.moved + 1) total (destName ep fname)] } := by
  unfold fileStep
  rw [if_neg (by simp [herr])]
  simp only [destName] at hmat ⊢
  rw [hmat]

lemma fileStep_err (env : LinkEnv) (total : Nat) (sf seasonF : MPath)
    (ep : Episode) (s : ApplySt) (fname : MName) (e : String)
    (herr : s.err = none)
    (hmat : materializeOne env s.fs (sf ++ [fname])
      (seasonF ++ [destName ep fname]) = .error e) :
    fileStep env total sf seasonF ep s fname =
      { s with
        maps := s.maps ++ [⟨sf ++ [fname], seasonF ++ [destName ep fname],
          fname, destName ep fname⟩]
        err := some e } := by
  unfold fileStep
  rw [if_neg (by simp [herr])]
  simp only [destName] at hmat ⊢
  rw [hmat]

lemma foldl_fileStep_inv (env : LinkEnv) (tv : MPath) (st : SeriesStructure)
    (sf : MPath) (N : Nat) (fs0 : MFS) (ep : Episode)
    (hep : ep ∈ st.episodes) (hsf : SeasonOK tv st sf)
    (names : List MName) (hmem : ∀ n ∈ names, n ∈ fs0.dirList sf) :
    ∀ s : ApplySt, ApplyInv tv st sf N fs0 s → s.err = none →
    ApplyInv tv st sf N fs0
      (names.foldl (fileStep env N sf (seasonDir tv st ep.season) ep) s) ∧
    (names.foldl (fileStep env N sf (seasonDir tv st ep.season) ep) s).moved
        ≤ s.moved + names.length ∧
    ((names.foldl (fileStep env N sf (seasonDir tv st ep.season) ep) s).err
        = none →
      (names.foldl (fileStep env N sf (seasonDir tv st ep.season) ep)
          s).moved = s.moved + names.length ∧
      (names.foldl (fileStep env N sf (seasonDir tv st ep.season) ep)
          s).maps.length = s.maps.length + names.length) := by
  induction names with
  | nil =>
    intro s hInv herr
    exact ⟨hInv, by simp, by simp⟩
  | cons n names ih =>
    intro s hInv herr
    obtain ⟨hFrame, hDir, ⟨ns, hEvs, hLen⟩, hMaps⟩ := hInv
    have hmemn : n ∈ fs0.dirList sf := hmem n (by simp)
    have hmemrest : ∀ x ∈ names, x ∈ fs0.dirList sf :=
      fun x hx => hmem x (by simp [hx])
    -- properties of the mapping appended by this step
    have hnewmap : ∀ m : FileMapping,
        m = ⟨sf ++ [n], seasonDir tv st ep.season ++ [destName ep n],
          n, destName ep n⟩ →
        m.old_path = sf ++ [m.old_name] ∧
        (fs0.read m.old_path).isSome = true ∧
        m.new_path.dropLast ≠ sf ∧ m.new_path ≠ [] := by
      intro m hm
      subst hm
      refine ⟨rfl, MFS.read_isSome_of_mem_dirList fs0 sf n hmemn, ?_, by simp⟩
      rw [List.dropLast_concat]
      exact hsf ep hep
    rw [List.foldl_cons]
    cases hmat : materializeOne env s.fs (sf ++ [n])
        (seasonDir tv st ep.season ++ [destName ep n]) with
    | error e =>
      rw [fileStep_err env N sf (seasonDir tv st ep.season) ep s n e herr hmat]
      rw [foldl_fileStep_dead _ _ _ _ _ _ _ (by simp)]
      refine ⟨⟨hFrame, hDir, ⟨ns, hEvs, hLen⟩, ?_⟩, by simp, by simp⟩
      intro m hm
      rcases List.mem_append.mp hm with hm1 | hm2
      · exact hMaps m hm1
      · exact hnewmap m (by simpa using hm2)
    | ok out =>
      obtain ⟨fs', strat⟩ := out
      obtain ⟨⟨c, hc, hcd⟩, hq_pres, hd_pres⟩ :=
        materializeOne_ok env s.fs _ _ fs' strat hmat
      rw [fileStep_ok env N sf (seasonDir tv st ep.season) ep s n fs' strat
        herr hmat]
      have hdrop : (seasonDir tv st ep.season ++ [destName ep n]).dropLast =
          seasonDir tv st ep.season := List.dropLast_concat
      have hInv1 : ApplyInv tv st sf N fs0
          { s with
            fs := fs'
            moved := s.moved + 1
            maps := s.maps ++ [⟨sf ++ [n],
              seasonDir tv st ep.season ++ [destName ep n], n, destName ep n⟩]
            evs := s.evs ++
              [Event.progress (s.moved + 1) N (destName ep n)] } := by
        refine ⟨?_, ?_, ?_, ?_⟩
        · intro q hq
          have hqdst : q ≠ seasonDir tv st ep.season ++ [destName ep n] := by
            intro hqe
            exact hq ep hep (by rw [hqe, hdrop])
          rw [hq_pres q hqdst]
          exact hFrame q hq
        · have hne : (seasonDir tv st ep.season ++
              [destName ep n]).dropLast ≠ sf := by
            rw [hdrop]
            exact hsf ep hep
          rw [hd_pres sf hne]
          exact hDir
        · refine ⟨ns ++ [destName ep n], ?_, by simp [hLen]⟩
          simp only [hEvs, progFrom_append, Nat.zero_add, hLen]
          simp
        · intro m hm
          rcases List.mem_append.mp hm with hm1 | hm2
          · exact hMaps m hm1
          · exact hnewmap m (by simpa using hm2)
      have herr1 : ({ s with
            fs := fs'
            moved := s.moved + 1
            maps := s.maps ++ [⟨sf ++ [n],
              seasonDir tv st ep.season ++ [destName ep n], n, destName ep n⟩]
            evs := s.evs ++
              [Event.progress (s.moved + 1) N (destName ep n)] }
          : ApplySt).err = none := herr
      obtain ⟨ih1, ih2, ih3⟩ := ih hmemrest _ hInv1 herr1
      refine ⟨ih1, by simpa using Nat.le_trans ih2 (by simp; omega), ?_⟩
      intro hend
      obtain ⟨ih4, ih5⟩ := ih3 hend
      constructor
      · rw [ih4]; simp; omega
      · rw [ih5]; simp; omega

lemma episodeStep_inv (env : LinkEnv) (tv : MPath) (st : SeriesStructure)
    (sf : MPath) (N : Nat) (fs0 : MFS) (hsf : SeasonOK tv st sf)
    (ep : Episode) (hep : ep ∈ st.episodes) (s : ApplySt)
    (hInv : ApplyInv tv st sf N fs0 s) :
    ApplyInv tv st sf N fs0 (episodeStep env tv st sf N s ep) ∧
    (episodeStep env tv st sf N s ep).moved ≤
      s.moved + countFor fs0 sf ep ∧
    ((episodeStep env tv st sf N s ep).err = none →
      s.err = none ∧
      (episodeStep env tv st sf N s ep).moved =
        s.moved + countFor fs0 sf ep ∧
      (episodeStep env tv st sf N s ep).maps.length =
        s.maps.length + countFor fs0 sf ep) := by
  cases herr : s.err with
  | some e =>
    rw [episodeStep_dead _ _ _ _ _ _ _ (by simp [herr])]
    exact ⟨hInv, by omega, fun h => absurd (herr ▸ h) (by simp)⟩
  | none =>
    have hsrc : s.fs.read (sf ++ [ep.original_filename]) =
        fs0.read (sf ++ [ep.original_filename]) := by
      apply hInv.1
      intro ep' hep'
      rw [List.dropLast_concat]
      exact fun hh => hsf ep' hep' hh.symm
    unfold episodeStep
    rw [if_neg (by simp [herr])]
    by_cases hex : (s.fs.read (sf ++ [ep.original_filename])).isSome = true
    · rw [if_pos hex]
      have hcount : countFor fs0 sf ep =
          (relatedNames (fs0.dirList sf)
            (stemOf ep.original_filename)).length := by
        unfold countFor
        rw [if_pos (by rw [← hsrc]; exact hex)]
      have hrel : relatedNames (s.fs.dirList sf)
          (stemOf ep.original_filename) =
          relatedNames (fs0.dirList sf) (stemOf ep.original_filename) := by
        rw [hInv.2.1]
      rw [hrel]
      have hmem : ∀ n ∈ relatedNames (fs0.dirList sf)
          (stemOf ep.original_filename), n ∈ fs0.dirList sf :=
        fun n hn => (List.mem_filter.mp hn).1
      obtain ⟨h1, h2, h3⟩ := foldl_fileStep_inv env tv st sf N fs0 ep hep hsf
        (relatedNames (fs0.dirList sf) (stemOf ep.original_filename))
        hmem s hInv herr
      rw [hcount]
      exact ⟨h1, h2, fun h => ⟨rfl, h3 h⟩⟩
    · rw [if_neg hex]
      have hcount : countFor fs0 sf ep = 0 := by
        unfold countFor
        rw [if_neg (by rw [← hsrc]; exact hex)]
      rw [hcount]
      exact ⟨hInv, by omega, fun _ => ⟨rfl, by omega, by omega⟩⟩

lemma foldl_episodeStep_inv (env : LinkEnv) (tv : MPath)
    (st : SeriesStructure) (sf : MPath) (N : Nat) (fs0 : MFS)
    (hsf : SeasonOK tv st sf) (eps : List Episode)
    (heps : ∀ ep ∈ eps, ep ∈ st.episodes) :
    ∀ s : ApplySt, ApplyInv tv st sf N fs0 s →
    ApplyInv tv st sf N fs0 (eps.foldl (episodeStep env tv st sf N) s) ∧
    (eps.foldl (episodeStep env tv st sf N) s).moved ≤
      s.moved + totalCount fs0 sf eps ∧
    ((eps.foldl (episodeStep env tv st sf N) s).err = none →
      s.err = none ∧
      (eps.foldl (episodeStep env tv st sf N) s).moved =
        s.moved + totalCount fs0 sf eps ∧
      (eps.foldl (episodeStep env tv st sf N) s).maps.length =
        s.maps.length + totalCount fs0 sf eps) := by
  induction eps with
  | nil =>
    intro s hInv
    exact ⟨hInv, by simp [totalCount], by simp [totalCount]⟩
  | cons ep eps ih =>
    intro s hInv
    have hep : ep ∈ st.episodes := heps ep (by simp)
    have hepsrest : ∀ e ∈ eps, e ∈ st.episodes :=
      fun e he => heps e (by simp [he])
    obtain ⟨e1, e2, e3⟩ := episodeStep_inv env tv st sf N fs0 hsf ep hep s hInv
    rw [List.foldl_cons]
    obtain ⟨f1, f2, f3⟩ := ih hepsrest _ e1
    have hTot : totalCount fs0 sf (ep :: eps) =
        countFor fs0 sf ep + totalCount fs0 sf eps := by
      simp [totalCount]
    refine ⟨f1, by omega, ?_⟩
    intro hend
    obtain ⟨g1, g2, g3⟩ := f3 hend
    obtain ⟨k1, k2, k3⟩ := e3 g1
    exact ⟨k1, by omega, by omega⟩

lemma applyRun_spec (env : LinkEnv) (now : String) (tv sf : MPath)
    (st : SeriesStructure) (fs0 : MFS) (hsf : SeasonOK tv st sf) :
    ∃ s1 : ApplySt,
      ApplyInv tv st sf (totalCount fs0 sf st.episodes) fs0 s1 ∧
      s1.moved ≤ totalCount fs0 sf st.episodes ∧
      (s1.err = none →
        s1.moved = totalCount fs0 sf st.episodes ∧
        s1.maps.length = totalCount fs0 sf st.episodes) ∧
      applyRun env now tv sf st fs0 =
        (match s1.err with
         | some e => { s1 with evs := s1.evs ++ [Event.error e] }
         | none =>
           if env.writeFails (sf ++ [appliedName]) then
             { s1 with
               err := some "marker write failed"
               evs := s1.evs ++ [Event.error "marker write failed"] }
           else if env.writeFails (sf ++ [mappingName]) then
             { s1 with
               fs := s1.fs.writeFile (sf ++ [appliedName])
                 (FileData.bytes ("Organization applied at " ++ now))
               err := some "record write failed"
               evs := s1.evs ++ [Event.error "record write failed"] }
           else
             { s1 with
               fs := (s1.fs.writeFile (sf ++ [appliedName])
                       (FileData.bytes ("Organization applied at " ++
                         now))).writeFile
                       (sf ++ [mappingName])
                       (FileData.record ⟨now, st.series_name, st.year,
                         seriesPath tv st, s1.maps⟩)
               evs := s1.evs ++ [Event.complete
                 "Organization applied successfully" s1.moved] }) := by
  have hInv0 : ApplyInv tv st sf (totalCount fs0 sf st.episodes) fs0
      ⟨fs0, 0, [], [Event.total (totalCount fs0 sf st.episodes)], none⟩ :=
    ⟨fun q hq => rfl, rfl, ⟨[], rfl, rfl⟩, by simp⟩
  obtain ⟨a1, a2, a3⟩ := foldl_episodeStep_inv env tv st sf
    (totalCount fs0 sf st.episodes) fs0 hsf st.episodes
    (fun e he => he) _ hInv0
  refine ⟨_, a1, by simpa using a2, ?_, rfl⟩
  intro h
  obtain ⟨-, m1, m2⟩ := a3 h
  exact ⟨by simpa using m1, by simpa using m2⟩

/-!
Lemmas about the revert fold.
-/

lemma revertStep_fs (renv : UnlinkEnv) (acc : MFS × Nat × List String)
    (m : FileMapping) :
    (revertStep renv acc m).1 = acc.1 ∨
      (revertStep renv acc m).1 = acc.1.erase m.new_path := by
  unfold revertStep
  dsimp only
  by_cases h1 : acc.1.existsF m.new_path = true
  · rw [if_pos h1]
    by_cases h2 : renv.unlinkFails m.new_path = true
    · rw [if_pos h2]
      exact Or.inl rfl
    · rw [if_neg h2]
      exact Or.inr rfl
  · rw [if_neg h1]
    exact Or.inl rfl

lemma foldl_revertStep_none (renv : UnlinkEnv) (ms : List FileMapping) :
    ∀ acc : MFS × Nat × List String, ∀ p : MPath, acc.1.read p = none →
      (ms.foldl (revertStep renv) acc).1.read p = none := by
  induction ms with
  | nil => intro acc p h; exact h
  | cons m ms ih =>
    intro acc p h
    rw [List.foldl_cons]
    apply ih
    rcases revertStep_fs renv acc m with he | he
    · rw [he]; exact h
    · rw [he]
      by_cases hp : p = m.new_path
      · rw [hp]; exact MFS.read_erase_self _ _
      · rw [MFS.read_erase_ne _ _ _ hp]; exact h

lemma foldl_revertStep_frame (renv : UnlinkEnv) (ms : List FileMapping) :
    ∀ acc : MFS × Nat × List String, ∀ p : MPath,
      (∀ m ∈ ms, p ≠ m.new_path) →
      (ms.foldl (revertStep renv) acc).1.read p = acc.1.read p := by
  induction ms with
  | nil => intro acc p _; rfl
  | cons m ms ih =>
    intro acc p hp
    rw [List.foldl_cons, ih _ p (fun m' hm' => hp m' (by simp [hm']))]
    rcases revertStep_fs renv acc m with he | he
    · rw [he]
    · rw [he, MFS.read_erase_ne _ _ _ (hp m (by simp))]

lemma foldl_revertStep_deletes (renv : UnlinkEnv) (ms : List FileMapping) :
    ∀ acc : MFS × Nat × List String,
      ∀ m ∈ ms, renv.unlinkFails m.new_path = false →
      (ms.foldl (revertStep renv) acc).1.read m.new_path = none := by
  induction ms with
  | nil => intro acc m hm; exact absurd hm (by simp)
  | cons m0 ms ih =>
    intro acc m hm hfail
    rw [List.foldl_cons]
    rcases List.mem_cons.mp hm with hm1 | hm2
    · subst hm1
      apply foldl_revertStep_none
      unfold revertStep
      dsimp only
      by_cases h1 : acc.1.existsF m.new_path = true
      · rw [if_pos h1, if_neg (by simp [hfail])]
        exact MFS.read_erase_self _ _
      · rw [if_neg h1]
        exact Option.not_isSome_iff_eq_none.mp
          (by simpa [MFS.existsF] using h1)
    · exact ih _ m hm2 hfail

lemma foldl_revertStep_errs (renv : UnlinkEnv) (ms : List FileMapping) :
    ∀ acc : MFS × Nat × List String,
      (∀ m ∈ ms, renv.unlinkFails m.new_path = false) →
      (ms.foldl (revertStep renv) acc).2.2 = acc.2.2 := by
  induction ms with
  | nil => intro acc _; rfl
  | cons m ms ih =>
    intro acc hfail
    rw [List.foldl_cons, ih _ (fun m' hm' => hfail m' (by simp [hm']))]
    unfold revertStep
    dsimp only
    by_cases h1 : acc.1.existsF m.new_path = true
    · rw [if_pos h1, if_neg (by simp [hfail m (by simp)])]
    · rw [if_neg h1]

/-!
Semantics of the escaped glob pattern `escape(stem) ++ ".*"`.
-/

lemma gmatchFuel_congr (f1 : Nat) : ∀ (f2 : Nat) (ps : List GPat)
    (s : List Char), ps.length + s.length < f1 →
    ps.length + s.length < f2 → gmatchFuel f1 ps s = gmatchFuel f2 ps s := by
  induction f1 with
  | zero => intro f2 ps s h1 _; omega
  | succ f1 ih =>
    intro f2 ps s h1 h2
    cases f2 with
    | zero => omega
    | succ f2 =>
      cases ps with
      | nil => rfl
      | cons pat ps =>
        cases pat with
        | star =>
          cases s with
          | nil =>
            simp only [gmatchFuel]
            exact ih f2 ps [] (by simp at h1 ⊢ <;> omega) (by simp at h2 ⊢ <;> omega)
          | cons d cs =>
            simp only [gmatchFuel]
            rw [ih f2 ps (d :: cs) (by simp at h1 ⊢ <;> omega)
              (by simp at h2 ⊢ <;> omega)]
            rw [ih f2 (GPat.star :: ps) cs (by simp at h1 ⊢ <;> omega)
              (by simp at h2 ⊢ <;> omega)]
        | anyOne =>
          cases s with
          | nil => rfl
          | cons d cs =>
            simp only [gmatchFuel]
            exact ih f2 ps cs (by simp at h1 ⊢ <;> omega) (by simp at h2 ⊢ <;> omega)
        | lit c =>
          cases s with
          | nil => rfl
          | cons d cs =>
            simp only [gmatchFuel]
            rw [ih f2 ps cs (by simp at h1 ⊢ <;> omega) (by simp at h2 ⊢ <;> omega)]

lemma gmatch_lit_cons (c : Char) (ps : List GPat) (s : List Char) :
    gmatch (.lit c :: ps) s =
      (match s with
       | [] => false
       | d :: cs => d == c && gmatch ps cs) := by
  unfold gmatch
  cases s with
  | nil => rfl
  | cons d cs =>
    show gmatchFuel (ps.length + 1 + (cs.length + 1) + 1) _ _ = _
    simp only [gmatchFuel]
    rw [gmatchFuel_congr _ (ps.length + cs.length + 1) ps cs
      (by omega) (by omega)]

lemma gmatch_star_cons (ps : List GPat) (s : List Char) :
    gmatch (.star :: ps) s =
      (gmatch ps s ||
        (match s with
         | [] => false
         | _ :: cs => gmatch (.star :: ps) cs)) := by
  unfold gmatch
  cases s with
  | nil =>
    show gmatchFuel (ps.length + 1 + 0 + 1) _ _ = _
    simp only [gmatchFuel]
    rw [gmatchFuel_congr _ (ps.length + 0 + 1) ps []
      (by simp <;> omega) (by simp)]
    simp
  | cons d cs =>
    show gmatchFuel (ps.length + 1 + (cs.length + 1) + 1) _ _ = _
    simp only [gmatchFuel]
    rw [gmatchFuel_congr _ (ps.length + (d :: cs).length + 1) ps (d :: cs)
      (by simp <;> omega) (by simp)]
    rw [gmatchFuel_congr _ ((GPat.star :: ps).length + cs.length + 1)
      (GPat.star :: ps) cs (by simp <;> omega) (by simp)]

lemma gmatch_star_all (s : List Char) : gmatch [GPat.star] s = true := by
  induction s with
  | nil => rfl
  | cons d cs ih =>
    rw [gmatch_star_cons]
    simp [ih]

lemma gmatch_lit_run (stem : List Char) : ∀ (ps : List GPat)
    (n : List Char),
    gmatch (stem.map GPat.lit ++ ps) n = true ↔
      ∃ t, n = stem ++ t ∧ gmatch ps t = true := by
  induction stem with
  | nil =>
    intro ps n
    simp
  | cons c stem ih =>
    intro ps n
    rw [List.map_cons, List.cons_append, gmatch_lit_cons]
    cases n with
    | nil =>
      simp
    | cons d cs =>
      constructor
      · intro h
        simp only [Bool.and_eq_true, beq_iff_eq] at h
        obtain ⟨hd, hrest⟩ := h
        obtain ⟨t, ht1, ht2⟩ := (ih ps cs).mp hrest
        exact ⟨t, by rw [hd, ht1, List.cons_append], ht2⟩
      · intro ⟨t, ht1, ht2⟩
        rw [List.cons_append] at ht1
        have hd : d = c := (List.cons.injEq .. ▸ ht1).1
        have hcs : cs = stem ++ t := (List.cons.injEq .. ▸ ht1).2
        simp only [Bool.and_eq_true, beq_iff_eq]
        exact ⟨hd, (ih ps cs).mpr ⟨t, hcs, ht2⟩⟩

lemma gtranslate_class (c2 : Char) (ps : List Char) :
    gtranslate ('[' :: c2 :: ']' :: ps) = .lit c2 :: gtranslate ps := rfl

lemma gtranslate_lit (c : Char) (ps : List Char) (h1 : c ≠ '*')
    (h2 : c ≠ '?') (h3 : c ≠ '[') :
    gtranslate (c :: ps) = .lit c :: gtranslate ps := by
  rcases ps with - | ⟨c2, ps1⟩
  · simp [gtranslate, h1, h2]
  · rcases ps1 with - | ⟨r, ps2⟩
    · simp [gtranslate, h1, h2]
    · rw [gtranslate.eq_def]
      simp [h1, h2, h3]

lemma gtranslate_globEscape (stem : List Char) (p : List Char) :
    gtranslate (globEscape stem ++ p) =
      stem.map GPat.lit ++ gtranslate p := by
  induction stem with
  | nil => rfl
  | cons c stem ih =>
    unfold globEscape
    by_cases hs : globSpecial c = true
    · rw [if_pos hs]
      rw [List.append_assoc, List.cons_append, List.cons_append,
        List.cons_append, List.nil_append, gtranslate_class, ih,
        List.map_cons, List.cons_append]
    · rw [if_neg hs]
      simp only [globSpecial, Bool.or_eq_true, decide_eq_true_eq] at hs
      push_neg at hs
      rw [List.append_assoc, List.singleton_append,
        gtranslate_lit c _ hs.1.1 hs.1.2 hs.2, ih, List.map_cons,
        List.cons_append]

lemma isPrefixOf_iff_append (l1 : List Char) : ∀ l2 : List Char,
    l1.isPrefixOf l2 = true ↔ ∃ t, l2 = l1 ++ t := by
  induction l1 with
  | nil => intro l2; simp [List.isPrefixOf]
  | cons c l1 ih =>
    intro l2
    cases l2 with
    | nil => simp [List.isPrefixOf]
    | cons d l2 =>
      simp only [List.isPrefixOf, Bool.and_eq_true, beq_iff_eq, ih,
        List.cons_append, List.cons.injEq]
      constructor
      · intro ⟨hd, t, ht⟩
        exact ⟨t, hd.symm, ht⟩
      · intro ⟨t, hd, ht⟩
        exact ⟨hd.symm, t, ht⟩

/-- The glob pattern the engine builds, `escape(stem) ++ ".*"`, matches
exactly the names that extend the stem by a dot: matching is literal in
the stem (glob-special characters included), and anything may follow
the dot. -/
theorem fnmatch_escape_spec (stem n : MName) :
    fnmatchChars (globEscape stem ++ ['.', '*']) n =
      (stem ++ ['.']).isPrefixOf n := by
  have hdot : gtranslate ['.', '*'] = [GPat.lit '.', GPat.star] := rfl
  have hlhs : fnmatchChars (globEscape stem ++ ['.', '*']) n = true ↔
      ∃ t, n = stem ++ '.' :: t := by
    unfold fnmatchChars
    rw [gtranslate_globEscape, hdot, gmatch_lit_run]
    constructor
    · intro ⟨t, ht1, ht2⟩
      rw [gmatch_lit_cons] at ht2
      cases t with
      | nil => exact absurd ht2 (by simp)
      | cons d cs =>
        simp only [Bool.and_eq_true, beq_iff_eq] at ht2
        exact ⟨cs, by rw [ht1, ht2.1]⟩
    · intro ⟨t, ht⟩
      refine ⟨'.' :: t, ht, ?_⟩
      rw [gmatch_lit_cons]
      simp [gmatch_star_all]
  have hrhs : (stem ++ ['.']).isPrefixOf n = true ↔
      ∃ t, n = stem ++ '.' :: t := by
    rw [isPrefixOf_iff_append]
    constructor
    · intro ⟨t, ht⟩
      exact ⟨t, by rw [ht, List.append_assoc, List.singleton_append]⟩
    · intro ⟨t, ht⟩
      exact ⟨t, by rw [ht, List.append_assoc, List.singleton_append]⟩
  cases hl : fnmatchChars (globEscape stem ++ ['.', '*']) n with
  | true =>
    exact ((hrhs.mpr (hlhs.mp hl)).symm)
  | false =>
    cases hr : (stem ++ ['.']).isPrefixOf n with
    | true => exact absurd (hlhs.mpr (hrhs.mp hr)) (by simp [hl])
    | false => rfl

/-!
Claim theorems.
-/

lemma materializeOne_eq_none (env : LinkEnv) (fs : MFS) (src dst : MPath)
    (h : fs.lookup src = none) :
    materializeOne env fs src dst =
      .error "link and copy failed: source missing" := by
  unfold materializeOne
  rw [h]

lemma materializeOne_eq_some (env : LinkEnv) (fs : MFS) (src dst : MPath)
    (i : Nat) (c : FileData) (h : fs.lookup src = some (i, c)) :
    materializeOne env fs src dst =
      (if (fs.existsF dst || env.linkFails src dst) = true then
        (if sameFile fs src dst = true then
          Except.error "SameFileError: source and destination are the same file"
         else if env.copyFails src dst = true then Except.error "copy failed"
         else Except.ok (fs.writeFile dst c, Strategy.copy))
       else Except.ok (fs.insert dst i c, Strategy.link)) := by
  unfold materializeOne
  rw [h]

lemma read_eq_of_lookup {fs : MFS} {p : MPath} {i : Nat} {c : FileData}
    (h : fs.lookup p = some (i, c)) : fs.read p = some c := by
  rw [MFS.read, h]
  rfl

/-- C9: for every single-file materialization, the engine first attempts
a hard link; a copy is performed (and succeeds, byte-identical to the
source, truncating an existing destination in place) exactly when the
link attempt fails — the source is missing, the destination already
exists, or the OS refuses the link — and the copy itself does not fail,
a copy failure being `SameFileError` on a destination hard-linked to
the source or an environmental fault; a pure link (sharing the source's
inode) happens exactly when the link attempt cannot fail; and the step
errors exactly when the link attempt fails and the copy also fails (a
missing source fails both). -/
theorem materializeOne_fallback_policy (env : LinkEnv) (fs : MFS)
    (src dst : MPath) :
    ((∃ fs' : MFS, materializeOne env fs src dst = .ok (fs', .copy) ∧
        ∃ c, fs.read src = some c ∧ fs' = fs.writeFile dst c) ↔
      ((fs.read src).isSome = true ∧
        (fs.existsF dst = true ∨ env.linkFails src dst = true) ∧
        sameFile fs src dst = false ∧ env.copyFails src dst = false)) ∧
    ((∃ fs' : MFS, materializeOne env fs src dst = .ok (fs', .link) ∧
        ∃ i c, fs.lookup src = some (i, c) ∧ fs' = fs.insert dst i c) ↔
      ((fs.read src).isSome = true ∧ fs.existsF dst = false ∧
        env.linkFails src dst = false)) ∧
    ((∃ e, materializeOne env fs src dst = .error e) ↔
      ((fs.read src).isSome = false ∨
        ((fs.existsF dst = true ∨ env.linkFails src dst = true) ∧
          (sameFile fs src dst = true ∨
            env.copyFails src dst = true)))) := by
  cases hr : fs.lookup src with
  | none =>
    have hread : fs.read src = none := by
      rw [MFS.read, hr]
      rfl
    rw [materializeOne_eq_none env fs src dst hr]
    refine ⟨?_, ?_, ?_⟩
    · simp [hread]
    · simp [hread]
    · simp [hread]
  | some ic =>
    obtain ⟨i, c⟩ := ic
    have hread : fs.read src = some c := read_eq_of_lookup hr
    rw [materializeOne_eq_some env fs src dst i c hr]
    by_cases h1 : (fs.existsF dst || env.linkFails src dst) = true
    · rw [if_pos h1]
      by_cases hs : sameFile fs src dst = true
      · rw [if_pos hs]
        refine ⟨?_, ?_, ?_⟩
        · simp [hs]
        · simp [hread]
          intro hex
          rcases (Bool.or_eq_true _ _).mp h1 with hh | hh
          · exact absurd hh (by simp [hex])
          · exact hh
        · simp only [Bool.or_eq_true] at h1
          simp [hread, hs, h1]
      · rw [if_neg hs]
        by_cases h2 : env.copyFails src dst = true
        · rw [if_pos h2]
          refine ⟨?_, ?_, ?_⟩
          · simp [h2]
          · simp [hread]
            intro hex
            rcases (Bool.or_eq_true _ _).mp h1 with hh | hh
            · exact absurd hh (by simp [hex])
            · exact hh
          · simp only [Bool.or_eq_true] at h1
            simp [hread, h2, h1]
        · rw [if_neg h2]
          refine ⟨?_, ?_, ?_⟩
          · simp only [Bool.or_eq_true] at h1
            simp only [Bool.not_eq_true] at hs h2
            simp [hread, h1, hs, h2]
          · simp [hread]
            intro hex
            rcases (Bool.or_eq_true _ _).mp h1 with hh | hh
            · exact absurd hh (by simp [hex])
            · exact hh
          · simp only [Bool.not_eq_true] at hs h2
            simp [hread, hs, h2]
    · rw [if_neg h1]
      simp only [Bool.or_eq_true, not_or, Bool.not_eq_true] at h1
      refine ⟨?_, ?_, ?_⟩
      · simp [hread, h1.1, h1.2]
      · simp [hread, hr, h1.1, h1.2]
        exact ⟨i, c, ⟨rfl, rfl⟩, rfl⟩
      · simp [hread, h1.1, h1.2]

/-- A benign OS environment: links, copies and writes never fail for
environmental reasons. -/
def noFailLinkEnv : LinkEnv :=
  ⟨fun _ _ => false, fun _ _ => false, fun _ => false⟩

/-- A benign OS environment for revert: unlinks never fail. -/
def noFailUnlinkEnv : UnlinkEnv := ⟨fun _ => false⟩

lemma foldl_episodeStep_dead (env : LinkEnv) (tv : MPath)
    (st : SeriesStructure) (sf : MPath) (total : Nat)
    (eps : List Episode) : ∀ s : ApplySt, s.err.isSome = true →
    eps.foldl (episodeStep env tv st sf total) s = s := by
  induction eps with
  | nil => intro s _; rfl
  | cons ep eps ih =>
    intro s h
    rw [List.foldl_cons, episodeStep_dead _ _ _ _ _ _ _ h, ih s h]

def c4src : MPath := ["src.mkv".toList]

def c4dst : MPath := ["dst.mkv".toList]

/-- A filesystem on which the destination of the duplication step
already exists as a separate file (its own inode). -/
def c4fs : MFS := ⟨[(c4src, 1, .bytes "A"), (c4dst, 2, .bytes "B")]⟩

/-- A filesystem on which the destination already exists as a hard link
of the source (same inode) — the state a re-run without revert finds. -/
def c4linkedFs : MFS := ⟨[(c4src, 1, .bytes "A"), (c4dst, 1, .bytes "A")]⟩

/-- C4 (counterexample): when the destination already exists as a
distinct file, the duplication step does not fail at all — `os.link`
raises `FileExistsError`, the handler falls back to `shutil.copy2`, and
the copy silently overwrites the destination, so the step reports
success with the copy strategy instead of a `LinkError`. -/
theorem materializeOne_existing_dest_no_error :
    c4fs.existsF c4dst = true ∧
    materializeOne noFailLinkEnv c4fs c4src c4dst =
      .ok (c4fs.writeFile c4dst (.bytes "A"), .copy) := by
  constructor
  · rfl
  · rfl

/-- C4 (amended): if the destination file already exists when the
per-file duplication step runs, the hard-link attempt fails and the
step falls back to `shutil.copy2`; when the destination is hard-linked
to the source — the re-run-without-revert case — the copy raises
`SameFileError`, which is not caught per file, so the step fails and
the pending exception makes every remaining episode a no-op, aborting
the batch into the terminal error event; when the destination is a
distinct file, the copy silently overwrites it and the batch continues.
In neither case is the failure a non-fatal per-file `LinkError`. -/
theorem materializeOne_existing_dest :
    (∀ (env : LinkEnv) (fs : MFS) (src dst : MPath),
      fs.existsF dst = true → sameFile fs src dst = true →
      materializeOne env fs src dst =
        .error "SameFileError: source and destination are the same file") ∧
    (∀ (env : LinkEnv) (fs : MFS) (src dst : MPath) (c : FileData),
      fs.read src = some c → fs.existsF dst = true →
      sameFile fs src dst = false → env.copyFails src dst = false →
      materializeOne env fs src dst =
        .ok (fs.writeFile dst c, .copy)) ∧
    (∀ (env : LinkEnv) (tv : MPath) (st : SeriesStructure) (sf : MPath)
      (total : Nat) (eps : List Episode) (s : ApplySt) (e : String),
      s.err = some e →
      eps.foldl (episodeStep env tv st sf total) s = s) := by
  refine ⟨?_, ?_, ?_⟩
  · intro env fs src dst hex hsame
    cases hr : fs.lookup src with
    | none =>
      exact absurd hsame (by simp [sameFile, MFS.ino, hr])
    | some ic =>
      rw [materializeOne_eq_some env fs src dst ic.1 ic.2 (by rw [hr])]
      rw [if_pos (by simp [hex]), if_pos hsame]
  · intro env fs src dst c h1 h2 h3 h4
    cases hr : fs.lookup src with
    | none =>
      rw [MFS.read, hr] at h1
      exact absurd h1 (by simp)
    | some ic =>
      have hc : ic.2 = c := by
        rw [MFS.read, hr] at h1
        simpa using h1
      rw [materializeOne_eq_some env fs src dst ic.1 ic.2 (by rw [hr])]
      rw [if_pos (by simp [h2]), if_neg (by simp [h3]),
        if_neg (by simp [h4]), hc]
  · intro env tv st sf total eps s e he
    exact foldl_episodeStep_dead env tv st sf total eps s (by simp [he])

/-- Witness for the amended C4 theorem: the hard-linked destination
aborts with `SameFileError`, the distinct-file destination is silently
overwritten. -/
theorem materializeOne_existing_dest_witness :
    (c4linkedFs.existsF c4dst = true ∧
      sameFile c4linkedFs c4src c4dst = true ∧
      c4fs.read c4src = some (.bytes "A") ∧ c4fs.existsF c4dst = true ∧
      sameFile c4fs c4src c4dst = false ∧
      noFailLinkEnv.copyFails c4src c4dst = false) ∧
    (materializeOne noFailLinkEnv c4linkedFs c4src c4dst =
      .error "SameFileError: source and destination are the same file" ∧
     materializeOne noFailLinkEnv c4fs c4src c4dst =
      .ok (c4fs.writeFile c4dst (.bytes "A"), .copy)) :=
  ⟨⟨rfl, rfl, rfl, rfl, rfl, rfl⟩,
    materializeOne_existing_dest.1 noFailLinkEnv c4linkedFs c4src c4dst
      rfl rfl,
    materializeOne_existing_dest.2.1 noFailLinkEnv c4fs c4src c4dst
      (.bytes "A") rfl rfl rfl rfl⟩

/-- Related-file discovery as the spec's sentence for C6 reads: the
files in the directory whose name sans extension equals the source
file's name sans extension. -/
def relatedNamesStemEq (dir : List MName) (stem : MName) : List MName :=
  dir.filter (fun n => decide (stemOf n = stem))

def c6dir : List MName := ["Show.mkv".toList, "Show.en.srt".toList]

/-- C6 (counterexample): with source `Show.mkv` (stem `Show`) and
sibling `Show.en.srt`, the glob `Show.*` matches `Show.en.srt` although
its name sans extension is `Show.en`, not `Show` — discovery is not the
stem-equality set the claim describes. -/
theorem relatedNames_ne_stem_equality :
    relatedNames c6dir (stemOf "Show.mkv".toList) ≠
      relatedNamesStemEq c6dir (stemOf "Show.mkv".toList) ∧
    "Show.en.srt".toList ∈ relatedNames c6dir (stemOf "Show.mkv".toList) ∧
    stemOf "Show.en.srt".toList ≠ stemOf "Show.mkv".toList := by
  refine ⟨by decide, by decide, by decide⟩

/-- C6 (amended): for every source stem — glob-special characters such
as brackets included, thanks to `glob.escape` — related-file discovery
returns exactly the files in the directory whose name is the stem
followed by a dot and an arbitrary (possibly further-dotted) tail: no
such sibling is dropped and nothing else is matched. -/
theorem relatedNames_eq_dot_extension (dir : List MName) (stem : MName) :
    relatedNames dir stem =
      dir.filter (fun n => (stem ++ ['.']).isPrefixOf n) := by
  unfold relatedNames
  apply List.filter_congr
  intro n _
  exact fnmatch_escape_spec stem n

lemma revertRun_eq_nomapping (renv : UnlinkEnv) (sf : MPath) (fs : MFS)
    (h : fs.read (sf ++ [mappingName]) = none) :
    revertRun renv sf fs = (fs, .error "No mapping file found") := by
  unfold revertRun
  rw [h]

lemma revertRun_eq_record (renv : UnlinkEnv) (sf : MPath) (fs : MFS)
    (r : MappingRecord)
    (h : fs.read (sf ++ [mappingName]) = some (.record r)) :
    revertRun renv sf fs =
      (let acc := r.file_mappings.foldl (revertStep renv) (fs, 0, [])
       let fs1 := acc.1
       if fs1.existsF (sf ++ [appliedName]) &&
           renv.unlinkFails (sf ++ [appliedName]) then
         (fs1, .error "marker unlink failed")
       else
         let fs2 := if fs1.existsF (sf ++ [appliedName]) then
                      fs1.erase (sf ++ [appliedName])
                    else fs1
         if fs2.existsF (sf ++ [mappingName]) then
           if renv.unlinkFails (sf ++ [mappingName]) then
             (fs2, .error "mapping file unlink failed")
           else (fs2.erase (sf ++ [mappingName]), .ok (acc.2.1, acc.2.2))
         else (fs2, .error "mapping file vanished during revert")) := by
  unfold revertRun
  rw [h]

lemma applied_ne_mapping : appliedName ≠ mappingName := by decide

/-- Characterization of a revert over an existing record whose
destinations lie outside the source folder and whose marker and record
unlinks do not fail environmentally: existing destinations whose unlink
succeeds end up deleted, everything that is neither a recorded
destination nor the marker nor the record file is untouched, and the
marker and record are removed and the response is a success even when
entries are missing or individual unlinks fail. -/
lemma revertRun_record_out (renv : UnlinkEnv) (sf : MPath) (fs : MFS)
    (r : MappingRecord)
    (hm : fs.read (sf ++ [mappingName]) = some (.record r))
    (hdisj : ∀ m ∈ r.file_mappings, m.new_path.dropLast ≠ sf)
    (hmk : renv.unlinkFails (sf ++ [appliedName]) = false)
    (hmf : renv.unlinkFails (sf ++ [mappingName]) = false) :
    (∀ m ∈ r.file_mappings, renv.unlinkFails m.new_path = false →
      (revertRun renv sf fs).1.read m.new_path = none) ∧
    (∀ p : MPath, (∀ m ∈ r.file_mappings, p ≠ m.new_path) →
      p ≠ sf ++ [appliedName] → p ≠ sf ++ [mappingName] →
      (revertRun renv sf fs).1.read p = fs.read p) ∧
    (revertRun renv sf fs).1.read (sf ++ [mappingName]) = none ∧
    (revertRun renv sf fs).1.read (sf ++ [appliedName]) = none ∧
    (revertRun renv sf fs).2 =
      .ok ((r.file_mappings.foldl (revertStep renv) (fs, 0, [])).2.1,
        (r.file_mappings.foldl (revertStep renv) (fs, 0, [])).2.2) := by
  rw [revertRun_eq_record renv sf fs r hm]
  dsimp only
  have hnewne : ∀ m ∈ r.file_mappings, sf ++ [appliedName] ≠ m.new_path ∧
      sf ++ [mappingName] ≠ m.new_path := by
    intro m hmm
    constructor
    · intro hx
      apply hdisj m hmm
      rw [← hx, List.dropLast_concat]
    · intro hx
      apply hdisj m hmm
      rw [← hx, List.dropLast_concat]
  have hmfkeep : (r.file_mappings.foldl (revertStep renv)
      (fs, 0, [])).1.read (sf ++ [mappingName]) = some (.record r) := by
    rw [foldl_revertStep_frame renv r.file_mappings (fs, 0, [])
      (sf ++ [mappingName]) (fun m hmm => (hnewne m hmm).2)]
    exact hm
  rw [if_neg (by simp [hmk])]
  have hm2 : ∀ fsx : MFS,
      fsx.read (sf ++ [mappingName]) = some (.record r) →
      fsx.existsF (sf ++ [mappingName]) = true := by
    intro fsx hx
    simp [MFS.existsF, hx]
  by_cases hmkex : (r.file_mappings.foldl (revertStep renv)
      (fs, 0, [])).1.existsF (sf ++ [appliedName]) = true
  · rw [if_pos hmkex]
    have hread2 : ((r.file_mappings.foldl (revertStep renv)
        (fs, 0, [])).1.erase (sf ++ [appliedName])).read
        (sf ++ [mappingName]) = some (.record r) := by
      rw [MFS.read_erase_ne _ _ _
        (fun hx => applied_ne_mapping (append_singleton_inj hx.symm).2)]
      exact hmfkeep
    rw [if_pos (hm2 _ hread2), if_neg (by simp [hmf])]
    refine ⟨?_, ?_, ?_, ?_, rfl⟩
    · intro m hmm hfail
      rw [MFS.read_erase_ne _ _ _ (hnewne m hmm).2.symm]
      rw [MFS.read_erase_ne _ _ _ (hnewne m hmm).1.symm]
      exact foldl_revertStep_deletes renv r.file_mappings _ m hmm hfail
    · intro p hp hp1 hp2
      rw [MFS.read_erase_ne _ _ _ hp2, MFS.read_erase_ne _ _ _ hp1]
      exact foldl_revertStep_frame renv r.file_mappings _ p hp
    · exact MFS.read_erase_self _ _
    · rw [MFS.read_erase_ne _ _ _
        (fun hx => applied_ne_mapping (append_singleton_inj hx).2)]
      exact MFS.read_erase_self _ _
  · rw [if_neg hmkex]
    rw [if_pos (hm2 _ hmfkeep), if_neg (by simp [hmf])]
    refine ⟨?_, ?_, ?_, ?_, rfl⟩
    · intro m hmm hfail
      rw [MFS.read_erase_ne _ _ _ (hnewne m hmm).2.symm]
      exact foldl_revertStep_deletes renv r.file_mappings _ m hmm hfail
    · intro p hp hp1 hp2
      rw [MFS.read_erase_ne _ _ _ hp2]
      exact foldl_revertStep_frame renv r.file_mappings _ p hp
    · exact MFS.read_erase_self _ _
    · rw [MFS.read_erase_ne _ _ _
        (fun hx => applied_ne_mapping (append_singleton_inj hx).2)]
      exact Option.not_isSome_iff_eq_none.mp
        (by simpa [MFS.existsF] using hmkex)

lemma applyRun_spec_success (env : LinkEnv) (now : String) (tv sf : MPath)
    (st : SeriesStructure) (fs0 : MFS) (hsf : SeasonOK tv st sf)
    (hok : (applyRun env now tv sf st fs0).err = none) :
    ∃ s1 : ApplySt,
      ApplyInv tv st sf (totalCount fs0 sf st.episodes) fs0 s1 ∧
      s1.err = none ∧
      s1.moved = totalCount fs0 sf st.episodes ∧
      s1.maps.length = totalCount fs0 sf st.episodes ∧
      applyRun env now tv sf st fs0 =
        { s1 with
          fs := (s1.fs.writeFile (sf ++ [appliedName])
                  (FileData.bytes ("Organization applied at " ++
                    now))).writeFile
                  (sf ++ [mappingName])
                  (FileData.record ⟨now, st.series_name, st.year,
                    seriesPath tv st, s1.maps⟩)
          evs := s1.evs ++ [Event.complete
            "Organization applied successfully" s1.moved] } := by
  obtain ⟨s1, hInv, hle, hcnt, hA⟩ := applyRun_spec env now tv sf st fs0 hsf
  cases herr : s1.err with
  | some e =>
    rw [hA, herr] at hok
    exact absurd hok (by simp)
  | none =>
    obtain ⟨hm1, hm2⟩ := hcnt herr
    by_cases hw1 : env.writeFails (sf ++ [appliedName]) = true
    · rw [hA, herr] at hok
      simp [hw1] at hok
    · by_cases hw2 : env.writeFails (sf ++ [mappingName]) = true
      · rw [hA, herr] at hok
        simp [hw1, hw2] at hok
      · refine ⟨s1, hInv, herr, hm1, hm2, ?_⟩
        rw [hA, herr]
        simp only [Bool.not_eq_true] at hw1 hw2
        simp [hw1, hw2]

lemma applyRun_spec_error (env : LinkEnv) (now : String) (tv sf : MPath)
    (st : SeriesStructure) (fs0 : MFS) (hsf : SeasonOK tv st sf)
    (e : String) (he : (applyRun env now tv sf st fs0).err = some e) :
    ∃ s1 : ApplySt,
      ApplyInv tv st sf (totalCount fs0 sf st.episodes) fs0 s1 ∧
      s1.moved ≤ totalCount fs0 sf st.episodes ∧
      (applyRun env now tv sf st fs0).evs = s1.evs ++ [Event.error e] ∧
      (applyRun env now tv sf st fs0).err = some e ∧
      (applyRun env now tv sf st fs0).maps = s1.maps ∧
      ((applyRun env now tv sf st fs0).fs = s1.fs ∨
        (applyRun env now tv sf st fs0).fs =
          s1.fs.writeFile (sf ++ [appliedName])
            (FileData.bytes ("Organization applied at " ++ now))) := by
  obtain ⟨s1, hInv, hle, hcnt, hA⟩ := applyRun_spec env now tv sf st fs0 hsf
  cases herr : s1.err with
  | some e1 =>
    have hAe : applyRun env now tv sf st fs0 =
        { s1 with evs := s1.evs ++ [Event.error e1] } := by
      rw [hA, herr]
    rw [hAe] at he
    have he2 : s1.err = some e := he
    have he1 : e1 = e := by
      rw [herr] at he2
      exact Option.some.inj he2
    subst he1
    exact ⟨s1, hInv, hle, by rw [hAe], by rw [hAe]; exact he2,
      by rw [hAe], Or.inl (by rw [hAe])⟩
  | none =>
    by_cases hw1 : env.writeFails (sf ++ [appliedName]) = true
    · have hAe : applyRun env now tv sf st fs0 =
          { s1 with
            err := some "marker write failed"
            evs := s1.evs ++ [Event.error "marker write failed"] } := by
        rw [hA, herr]
        simp [hw1]
      rw [hAe] at he
      have he2 : some "marker write failed" = some e := he
      have he1 : e = "marker write failed" := (Option.some.inj he2).symm
      subst he1
      exact ⟨s1, hInv, hle, by rw [hAe], by rw [hAe], by rw [hAe],
        Or.inl (by rw [hAe])⟩
    · by_cases hw2 : env.writeFails (sf ++ [mappingName]) = true
      · have hAe : applyRun env now tv sf st fs0 =
            { s1 with
              fs := s1.fs.writeFile (sf ++ [appliedName])
                (FileData.bytes ("Organization applied at " ++ now))
              err := some "record write failed"
              evs := s1.evs ++ [Event.error "record write failed"] } := by
          rw [hA, herr]
          simp [hw1, hw2]
        rw [hAe] at he
        have he2 : some "record write failed" = some e := he
        have he1 : e = "record write failed" := (Option.some.inj he2).symm
        subst he1
        exact ⟨s1, hInv, hle, by rw [hAe], by rw [hAe], by rw [hAe],
          Or.inr (by rw [hAe])⟩
      · rw [hA, herr] at he
        simp only [Bool.not_eq_true] at hw1 hw2
        simp [hw1, hw2] at he

/-- C3: revert on a folder with no mapping file fails with the
no-record error and changes nothing; revert on a folder whose
MappingRecord exists (destinations outside the source folder, marker
and record unlink not environmentally failing) deletes every recorded
`new_path` whose unlink does not fail — absent ones are tolerated,
remaining absent, with only a log note — never deletes an `old_path`
(nothing outside the recorded destinations, marker and record file is
touched), and removes both the MappingRecord and the applied-marker
with a success response regardless of per-entry failures. -/
theorem revert_spec (renv : UnlinkEnv) (sf : MPath) (fs : MFS) :
    (fs.read (sf ++ [mappingName]) = none →
      revertRun renv sf fs = (fs, .error "No mapping file found")) ∧
    (∀ r : MappingRecord,
      fs.read (sf ++ [mappingName]) = some (.record r) →
      (∀ m ∈ r.file_mappings, m.new_path.dropLast ≠ sf) →
      renv.unlinkFails (sf ++ [appliedName]) = false →
      renv.unlinkFails (sf ++ [mappingName]) = false →
      ((∀ m ∈ r.file_mappings, renv.unlinkFails m.new_path = false →
          (revertRun renv sf fs).1.read m.new_path = none) ∧
       (∀ m ∈ r.file_mappings,
          (∀ m' ∈ r.file_mappings, m.old_path ≠ m'.new_path) →
          m.old_path ≠ sf ++ [appliedName] →
          m.old_path ≠ sf ++ [mappingName] →
          (revertRun renv sf fs).1.read m.old_path =
            fs.read m.old_path) ∧
       (revertRun renv sf fs).1.read (sf ++ [mappingName]) = none ∧
       (revertRun renv sf fs).1.read (sf ++ [appliedName]) = none ∧
       ∃ k errs, (revertRun renv sf fs).2 = .ok (k, errs))) := by
  constructor
  · intro h
    exact revertRun_eq_nomapping renv sf fs h
  · intro r hm hdisj hmk hmf
    obtain ⟨ra, rb, rc1, rc2, rres⟩ :=
      revertRun_record_out renv sf fs r hm hdisj hmk hmf
    refine ⟨ra, ?_, rc1, rc2, _, _, rres⟩
    intro m hmm hold h1 h2
    exact rb m.old_path (fun m' hm' => hold m' hm') h1 h2

def wrSf : MPath := ["d".toList]

def wrMapA : FileMapping :=
  ⟨["d".toList, "a.mkv".toList], ["tv".toList, "A.mkv".toList],
    "a.mkv".toList, "A.mkv".toList⟩

def wrMapB : FileMapping :=
  ⟨["d".toList, "b.mkv".toList], ["tv".toList, "B.mkv".toList],
    "b.mkv".toList, "B.mkv".toList⟩

def wrRec : MappingRecord :=
  ⟨"T", "S".toList, none, ["tv".toList], [wrMapA, wrMapB]⟩

/-- A source folder with a two-entry record whose first destination
exists and whose second has been deleted by hand. -/
def wrFs : MFS :=
  ⟨[(wrSf ++ [mappingName], 10, .record wrRec),
    (wrSf ++ [appliedName], 11, .bytes "T"),
    (["d".toList, "a.mkv".toList], 1, .bytes "VA"),
    (["d".toList, "b.mkv".toList], 2, .bytes "VB"),
    (["tv".toList, "A.mkv".toList], 1, .bytes "VA")]⟩

/-- Witness for C3 at a concrete folder. -/
theorem revert_spec_witness :
    (wrFs.read (wrSf ++ [mappingName]) = some (.record wrRec) ∧
     (∀ m ∈ wrRec.file_mappings, m.new_path.dropLast ≠ wrSf) ∧
     noFailUnlinkEnv.unlinkFails (wrSf ++ [appliedName]) = false ∧
     noFailUnlinkEnv.unlinkFails (wrSf ++ [mappingName]) = false) ∧
    ((revertRun noFailUnlinkEnv wrSf wrFs).1.read
        (wrSf ++ [mappingName]) = none ∧
     (revertRun noFailUnlinkEnv wrSf wrFs).1.read
        (wrSf ++ [appliedName]) = none ∧
     ∃ k errs, (revertRun noFailUnlinkEnv wrSf wrFs).2 = .ok (k, errs)) :=
  ⟨⟨by decide, by decide, rfl, rfl⟩,
    ((revert_spec noFailUnlinkEnv wrSf wrFs).2 wrRec (by decide)
      (by decide) rfl rfl).2.2⟩

def c8sf : MPath := ["d8".toList]

def c8map : FileMapping :=
  ⟨["d8".toList, "old.mkv".toList], ["gone.mkv".toList],
    "old.mkv".toList, "gone.mkv".toList⟩

def c8rec : MappingRecord :=
  ⟨"T", "S".toList, none, ["tv".toList], [c8map]⟩

/-- A folder with a record whose only `new_path` no longer exists. -/
def c8fs : MFS :=
  ⟨[(c8sf ++ [mappingName], 10, .record c8rec),
    (c8sf ++ [appliedName], 11, .bytes "T"),
    (["d8".toList, "old.mkv".toList], 1, .bytes "V")]⟩

/-- C8 (counterexample): reverting with a manually deleted `new_path`
succeeds but returns an empty `errors` sequence (the missing entry is
only logged, not reported), and calling revert again right after fails
with the no-record error instead of succeeding — so revert called twice
in a row does not succeed and `errors` is not populated for missing
entries. -/
theorem revert_twice_fails :
    (revertRun noFailUnlinkEnv c8sf c8fs).2 = .ok (0, []) ∧
    (revertRun noFailUnlinkEnv c8sf
        (revertRun noFailUnlinkEnv c8sf c8fs).1).2 =
      .error "No mapping file found" := by
  constructor
  · rfl
  · rfl

/-- C8 (amended): reverting after some recorded `new_path` files were
manually deleted succeeds — the missing ones are skipped with only a
log warning, so `errors` stays empty — and still clears the
MappingRecord; because the record is cleared, a second revert
immediately afterwards fails with the no-record error rather than
succeeding. -/
theorem revert_clears_record_once (renv : UnlinkEnv) (sf : MPath)
    (fs : MFS) (r : MappingRecord)
    (hm : fs.read (sf ++ [mappingName]) = some (.record r))
    (hdisj : ∀ m ∈ r.file_mappings, m.new_path.dropLast ≠ sf)
    (hmk : renv.unlinkFails (sf ++ [appliedName]) = false)
    (hmf : renv.unlinkFails (sf ++ [mappingName]) = false)
    (hnp : ∀ m ∈ r.file_mappings, renv.unlinkFails m.new_path = false) :
    (∃ k, (revertRun renv sf fs).2 = .ok (k, [])) ∧
    (revertRun renv sf (revertRun renv sf fs).1).2 =
      .error "No mapping file found" := by
  obtain ⟨-, -, rc1, -, rres⟩ :=
    revertRun_record_out renv sf fs r hm hdisj hmk hmf
  constructor
  · refine ⟨(r.file_mappings.foldl (revertStep renv) (fs, 0, [])).2.1, ?_⟩
    rw [rres,
      foldl_revertStep_errs renv r.file_mappings (fs, 0, ([] : List String))
        hnp]
  · rw [revertRun_eq_nomapping renv sf _ rc1]

/-- Witness for the amended C8 theorem at a concrete folder. -/
theorem revert_clears_record_once_witness :
    (c8fs.read (c8sf ++ [mappingName]) = some (.record c8rec) ∧
     (∀ m ∈ c8rec.file_mappings, m.new_path.dropLast ≠ c8sf) ∧
     noFailUnlinkEnv.unlinkFails (c8sf ++ [appliedName]) = false ∧
     noFailUnlinkEnv.unlinkFails (c8sf ++ [mappingName]) = false ∧
     (∀ m ∈ c8rec.file_mappings,
        noFailUnlinkEnv.unlinkFails m.new_path = false)) ∧
    ((∃ k, (revertRun noFailUnlinkEnv c8sf c8fs).2 = .ok (k, [])) ∧
     (revertRun noFailUnlinkEnv c8sf
        (revertRun noFailUnlinkEnv c8sf c8fs).1).2 =
      .error "No mapping file found") :=
  ⟨⟨by decide, by decide, rfl, rfl, by decide⟩,
    revert_clears_record_once noFailUnlinkEnv c8sf c8fs c8rec (by decide)
      (by decide) rfl rfl (by decide)⟩

def wSf : MPath := ["tv_unordered".toList, "ShowDir".toList]

def wTv : MPath := ["tv".toList]

/-- A source folder holding one episode video and one subtitle. -/
def wFs : MFS :=
  ⟨[(wSf ++ ["Show S01E01.mkv".toList], 1, .bytes "V"),
    (wSf ++ ["Show S01E01.srt".toList], 2, .bytes "S")]⟩

def wSt : SeriesStructure :=
  ⟨"Show".toList, none,
    [⟨"Show S01E01.mkv".toList, "Show S01E01.mkv".toList, 1⟩]⟩

/-- An environment on which the final record write faults while
everything else succeeds. -/
def c7env : LinkEnv :=
  ⟨fun _ _ => false, fun _ _ => false,
    fun p => decide (p = wSf ++ [mappingName])⟩

/-- C7 (counterexample): a run whose mapping-record write faults
terminates with an error event, yet the applied-marker — written just
before the record at `src/app.py` line 271 — is already on disk, so an
error-terminated run does not write neither file. -/
theorem apply_error_run_keeps_marker :
    wFs.read (wSf ++ [appliedName]) = none ∧
    (applyRun c7env "T" wTv wSf wSt wFs).err =
      some "record write failed" ∧
    (applyRun c7env "T" wTv wSf wSt wFs).evs.getLast? =
      some (Event.error "record write failed") ∧
    ((applyRun c7env "T" wTv wSf wSt wFs).fs.read
      (wSf ++ [appliedName])).isSome = true ∧
    (applyRun c7env "T" wTv wSf wSt wFs).fs.read
      (wSf ++ [mappingName]) = none := by
  refine ⟨rfl, rfl, rfl, rfl, rfl⟩

/-- C7 (amended): the MappingRecord is written only by a fully
successful apply — an error-terminated run always leaves it exactly as
it was — and a successful run writes it exactly once, holding the full
mapping list whose length equals the announced total, i.e. only after
every counted file has been materialized, together with the
applied-marker.  The marker, however, is written immediately before
the record and the two writes are not atomic: on an error-terminated
run the marker either reads as before the run or, when the record
write itself was the failure, already holds the fresh marker text. -/
theorem apply_record_only_on_success (env : LinkEnv) (now : String)
    (tv sf : MPath) (st : SeriesStructure) (fs0 : MFS)
    (hsf : SeasonOK tv st sf) :
    (∀ e, (applyRun env now tv sf st fs0).err = some e →
      (applyRun env now tv sf st fs0).fs.read (sf ++ [mappingName]) =
        fs0.read (sf ++ [mappingName]) ∧
      ((applyRun env now tv sf st fs0).fs.read (sf ++ [appliedName]) =
        fs0.read (sf ++ [appliedName]) ∨
       (applyRun env now tv sf st fs0).fs.read (sf ++ [appliedName]) =
        some (FileData.bytes ("Organization applied at " ++ now)))) ∧
    ((applyRun env now tv sf st fs0).err = none →
      (applyRun env now tv sf st fs0).fs.read (sf ++ [mappingName]) =
        some (FileData.record ⟨now, st.series_name, st.year,
          seriesPath tv st, (applyRun env now tv sf st fs0).maps⟩) ∧
      ((applyRun env now tv sf st fs0).fs.read
        (sf ++ [appliedName])).isSome = true ∧
      (applyRun env now tv sf st fs0).maps.length =
        totalCount fs0 sf st.episodes) := by
  have hqok : ∀ s1 : ApplySt, ∀ n : MName,
      (∀ q : MPath, (∀ ep ∈ st.episodes,
        q.dropLast ≠ seasonDir tv st ep.season) →
        s1.fs.read q = fs0.read q) →
      s1.fs.read (sf ++ [n]) = fs0.read (sf ++ [n]) := by
    intro s1 n hFrame
    apply hFrame
    intro ep hep hx
    apply hsf ep hep
    rw [List.dropLast_concat] at hx
    exact hx.symm
  constructor
  · intro e he
    obtain ⟨s1, hInv, -, -, -, -, hfs⟩ :=
      applyRun_spec_error env now tv sf st fs0 hsf e he
    rcases hfs with hfs | hfs
    · rw [hfs]
      exact ⟨hqok s1 mappingName hInv.1, Or.inl (hqok s1 appliedName
        hInv.1)⟩
    · rw [hfs]
      constructor
      · rw [MFS.read_writeFile_ne _ _ _ _
          (fun hx => applied_ne_mapping (append_singleton_inj hx.symm).2)]
        exact hqok s1 mappingName hInv.1
      · exact Or.inr (MFS.read_writeFile_self _ _ _)
  · intro hok
    obtain ⟨s1, hInv, herr, hmov, hlen, hAe⟩ :=
      applyRun_spec_success env now tv sf st fs0 hsf hok
    rw [hAe]
    dsimp only
    refine ⟨MFS.read_writeFile_self _ _ _, ?_, hlen⟩
    rw [MFS.read_writeFile_ne _ _ _ _
      (fun hx => applied_ne_mapping (append_singleton_inj hx).2)]
    rw [MFS.read_writeFile_self]
    rfl

/-- Witness for the amended C7 theorem: the successful concrete run has
the record with both files' mappings, and the marker. -/
theorem apply_record_only_on_success_witness :
    (SeasonOK wTv wSt wSf ∧
      (applyRun noFailLinkEnv "T" wTv wSf wSt wFs).err = none) ∧
    ((applyRun noFailLinkEnv "T" wTv wSf wSt wFs).fs.read
        (wSf ++ [mappingName]) =
      some (FileData.record ⟨"T", wSt.series_name, wSt.year,
        seriesPath wTv wSt,
        (applyRun noFailLinkEnv "T" wTv wSf wSt wFs).maps⟩) ∧
     ((applyRun noFailLinkEnv "T" wTv wSf wSt wFs).fs.read
        (wSf ++ [appliedName])).isSome = true ∧
     (applyRun noFailLinkEnv "T" wTv wSf wSt wFs).maps.length =
       totalCount wFs wSf wSt.episodes) :=
  ⟨⟨by decide, by decide⟩,
    (apply_record_only_on_success noFailLinkEnv "T" wTv wSf wSt wFs
      (by decide)).2 (by decide)⟩

/-- C2: every apply invocation emits exactly one total event first,
carrying the pre-scan count of the initial filesystem (so before any
mutation), then one progress event per materialized file with `current`
increasing by one from 1, and exactly one terminal event: on success a
complete event with the count having reached the announced total, on
failure an error event — never both. -/
theorem apply_event_stream (env : LinkEnv) (now : String) (tv sf : MPath)
    (st : SeriesStructure) (fs0 : MFS) (hsf : SeasonOK tv st sf) :
    ∃ ns : List MName, ∃ last : Event,
      (applyRun env now tv sf st fs0).evs =
        Event.total (totalCount fs0 sf st.episodes) ::
          (progFrom (totalCount fs0 sf st.episodes) 0 ns ++ [last]) ∧
      ns.length ≤ totalCount fs0 sf st.episodes ∧
      (((applyRun env now tv sf st fs0).err = none ∧
        last = Event.complete "Organization applied successfully"
          (totalCount fs0 sf st.episodes) ∧
        ns.length = totalCount fs0 sf st.episodes) ∨
       (∃ e, (applyRun env now tv sf st fs0).err = some e ∧
        last = Event.error e)) := by
  cases herrA : (applyRun env now tv sf st fs0).err with
  | none =>
    obtain ⟨s1, hInv, herr, hmov, hlen, hA⟩ :=
      applyRun_spec_success env now tv sf st fs0 hsf herrA
    obtain ⟨ns, hEvs, hLen⟩ := hInv.2.2.1
    refine ⟨ns, Event.complete "Organization applied successfully"
      (totalCount fs0 sf st.episodes), ?_, ?_, Or.inl ⟨rfl, rfl, ?_⟩⟩
    · rw [hA]
      dsimp only
      rw [hEvs, hmov, List.cons_append]
    · rw [hLen, hmov]
    · rw [hLen, hmov]
  | some e =>
    obtain ⟨s1, hInv, hle, hevs, -, -, -⟩ :=
      applyRun_spec_error env now tv sf st fs0 hsf e herrA
    obtain ⟨ns, hEvs, hLen⟩ := hInv.2.2.1
    refine ⟨ns, Event.error e, ?_, ?_, Or.inr ⟨e, rfl, rfl⟩⟩
    · rw [hevs, hEvs, List.cons_append]
    · rw [hLen]
      exact hle

/-- Witness for C2 at the concrete one-episode folder. -/
theorem apply_event_stream_witness :
    SeasonOK wTv wSt wSf ∧
    ∃ ns : List MName, ∃ last : Event,
      (applyRun noFailLinkEnv "T" wTv wSf wSt wFs).evs =
        Event.total (totalCount wFs wSf wSt.episodes) ::
          (progFrom (totalCount wFs wSf wSt.episodes) 0 ns ++ [last]) ∧
      ns.length ≤ totalCount wFs wSf wSt.episodes ∧
      (((applyRun noFailLinkEnv "T" wTv wSf wSt wFs).err = none ∧
        last = Event.complete "Organization applied successfully"
          (totalCount wFs wSf wSt.episodes) ∧
        ns.length = totalCount wFs wSf wSt.episodes) ∨
       (∃ e, (applyRun noFailLinkEnv "T" wTv wSf wSt wFs).err = some e ∧
        last = Event.error e)) :=
  ⟨by decide,
    apply_event_stream noFailLinkEnv "T" wTv wSf wSt wFs (by decide)⟩

lemma episodeStep_skip (env : LinkEnv) (tv : MPath)
    (st : SeriesStructure) (sf : MPath) (total : Nat) (s : ApplySt)
    (ep : Episode) (herr : s.err = none)
    (h : (s.fs.read (sf ++ [ep.original_filename])).isSome = false) :
    episodeStep env tv st sf total s ep = s := by
  unfold episodeStep
  rw [if_neg (by simp [herr]), if_neg (by simp [h])]

/-- C10: an episode whose `original_filename` does not exist under the
source folder is skipped with only a log warning: the apply run — its
event stream, recorded mappings, final filesystem and outcome — is
identical to the run on the same structure with that episode removed,
so no error event is emitted for it, no FileMapping is recorded for it,
and the remaining episodes are processed unchanged. -/
theorem applyRun_skips_missing (env : LinkEnv) (now : String)
    (tv sf : MPath) (nm : MName) (yr : Option Int)
    (eps1 eps2 : List Episode) (ep : Episode) (fs0 : MFS)
    (hsf : SeasonOK tv ⟨nm, yr, eps1 ++ ep :: eps2⟩ sf)
    (hmiss : fs0.read (sf ++ [ep.original_filename]) = none) :
    applyRun env now tv sf ⟨nm, yr, eps1 ++ ep :: eps2⟩ fs0 =
      applyRun env now tv sf ⟨nm, yr, eps1 ++ eps2⟩ fs0 := by
  have htot : totalCount fs0 sf (eps1 ++ ep :: eps2) =
      totalCount fs0 sf (eps1 ++ eps2) := by
    unfold totalCount
    rw [List.map_append, List.map_cons, List.map_append,
      List.sum_append, List.sum_cons, List.sum_append]
    have h0 : countFor fs0 sf ep = 0 := by
      unfold countFor
      rw [hmiss]
      rfl
    rw [h0]
    omega
  have hInv0 : ApplyInv tv ⟨nm, yr, eps1 ++ ep :: eps2⟩ sf
      (totalCount fs0 sf (eps1 ++ ep :: eps2)) fs0
      ⟨fs0, 0, [], [Event.total (totalCount fs0 sf (eps1 ++ ep :: eps2))],
        none⟩ :=
    ⟨fun q hq => rfl, rfl, ⟨[], rfl, rfl⟩, by simp⟩
  obtain ⟨hInvMid, -, -⟩ := foldl_episodeStep_inv env tv
    ⟨nm, yr, eps1 ++ ep :: eps2⟩ sf
    (totalCount fs0 sf (eps1 ++ ep :: eps2)) fs0 hsf eps1
    (fun e he => by simp [he]) _ hInv0
  have hmid : episodeStep env tv ⟨nm, yr, eps1 ++ ep :: eps2⟩ sf
      (totalCount fs0 sf (eps1 ++ ep :: eps2))
      (eps1.foldl (episodeStep env tv ⟨nm, yr, eps1 ++ ep :: eps2⟩ sf
        (totalCount fs0 sf (eps1 ++ ep :: eps2)))
        ⟨fs0, 0, [],
          [Event.total (totalCount fs0 sf (eps1 ++ ep :: eps2))], none⟩)
      ep =
      eps1.foldl (episodeStep env tv ⟨nm, yr, eps1 ++ ep :: eps2⟩ sf
        (totalCount fs0 sf (eps1 ++ ep :: eps2)))
        ⟨fs0, 0, [],
          [Event.total (totalCount fs0 sf (eps1 ++ ep :: eps2))], none⟩ := by
    cases herr : (eps1.foldl (episodeStep env tv
        ⟨nm, yr, eps1 ++ ep :: eps2⟩ sf
        (totalCount fs0 sf (eps1 ++ ep :: eps2)))
        ⟨fs0, 0, [],
          [Event.total (totalCount fs0 sf (eps1 ++ ep :: eps2))],
          none⟩).err with
    | some e => exact episodeStep_dead _ _ _ _ _ _ _ (by simp [herr])
    | none =>
      have hread : (eps1.foldl (episodeStep env tv
          ⟨nm, yr, eps1 ++ ep :: eps2⟩ sf
          (totalCount fs0 sf (eps1 ++ ep :: eps2)))
          ⟨fs0, 0, [],
            [Event.total (totalCount fs0 sf (eps1 ++ ep :: eps2))],
            none⟩).fs.read (sf ++ [ep.original_filename]) =
          fs0.read (sf ++ [ep.original_filename]) := by
        apply hInvMid.1
        intro ep' hep' hx
        apply hsf ep' hep'
        rw [List.dropLast_concat] at hx
        exact hx.symm
      apply episodeStep_skip _ _ _ _ _ _ _ herr
      rw [hread, hmiss]
      rfl
  simp only [applyRun]
  rw [← htot]
  rw [List.foldl_append, List.foldl_append, List.foldl_cons]
  rw [hmid]
  rfl

def wEpMiss : Episode :=
  ⟨"Missing.mkv".toList, "Show S01E02.mkv".toList, 1⟩

/-- Witness for C10: a run with a missing-source episode in front
equals the run without it. -/
theorem applyRun_skips_missing_witness :
    (SeasonOK wTv ⟨"Show".toList, none, [] ++ wEpMiss :: wSt.episodes⟩
        wSf ∧
      wFs.read (wSf ++ [wEpMiss.original_filename]) = none) ∧
    applyRun noFailLinkEnv "T" wTv wSf
        ⟨"Show".toList, none, [] ++ wEpMiss :: wSt.episodes⟩ wFs =
      applyRun noFailLinkEnv "T" wTv wSf
        ⟨"Show".toList, none, [] ++ wSt.episodes⟩ wFs :=
  ⟨⟨by decide, by decide⟩,
    applyRun_skips_missing noFailLinkEnv "T" wTv wSf "Show".toList none
      [] wSt.episodes wEpMiss wFs (by decide) (by decide)⟩
